import Mathlib

/-!
Verification of the pyMINFLUX analysis core.

Shallow embedding of the Python sources (`pyminflux/analysis/_analysis.py`,
`pyminflux/fourier/_fourier.py`, `pyminflux/reader/_reader.py`,
`pyminflux/processor/_processor.py`, `pyminflux/state/_state.py`) over exact
rational arithmetic.  NumPy float arrays are modelled as `List ℚ`; a float
`NaN` slot is modelled as `none : Option ℚ`; Python exceptions are modelled
with `Except`.  Library calls whose value is irrational (`np.exp`, square
roots, the Freedman-Diaconis cube root, `scipy.signal.savgol_filter`) are
abstracted as oracle function parameters: no theorem below depends on their
values.
-/

namespace PyMinflux

/-- Python `int(q)` on a finite float: truncation toward zero. -/
def ratTrunc (q : ℚ) : ℤ :=
  if 0 ≤ q then ⌊q⌋ else ⌈q⌉

/-- NumPy `np.round` / `np.around` with `decimals=0`: round half to even. -/
def roundHalfEven (q : ℚ) : ℤ :=
  if q - ⌊q⌋ < 1/2 then ⌊q⌋
  else if 1/2 < q - ⌊q⌋ then ⌊q⌋ + 1
  else if Even ⌊q⌋ then ⌊q⌋ else ⌊q⌋ + 1

/-- NumPy `np.min` of a 1-d array.  The empty case raises in NumPy; every
call below is guarded by a non-emptiness check, so the default is never
relevant. -/
def npMin (l : List ℚ) : ℚ :=
  l.foldl min (l.headD 0)

/-- NumPy `np.max` of a 1-d array (same guard remark as `npMin`). -/
def npMax (l : List ℚ) : ℚ :=
  l.foldl max (l.headD 0)

/-- NumPy `np.arange(start, stop, step)` for a nonzero step: the elements
`start + k*step` for `0 ≤ k < ⌈(stop-start)/step⌉`.  (NumPy raises on a zero
step; that case is never reached by the embedded code.) -/
def npArange (start stop step : ℚ) : List ℚ :=
  if step = 0 then []
  else (List.range (⌈(stop - start) / step⌉).toNat).map
    (fun k : ℕ => start + (k : ℚ) * step)

/-- NumPy boolean-mask indexing `a[m]`: keep the entries of `a` at the
positions where `m` is `true`. -/
def maskFilter {α : Type} (a : List α) (m : List Bool) : List α :=
  (a.zip m).filterMap (fun p => if p.2 then some p.1 else none)

/-- Error kinds raised by the embedded functions (modelling Python
exceptions). -/
inductive PyErr where
  /-- `ValueError` carrying the "No data." message. -/
  | emptyInput : PyErr
  /-- `ValueError` carrying the "must be a positive number" message. -/
  | invalidParameter : PyErr
  /-- `OverflowError` / `ValueError` raised by `int(inf)` or `int(nan)`. -/
  | intConversion : PyErr
  /-- The generic `Exception` raised by the `bin_size` guard in
  `prepare_histogram`. -/
  | genericException : PyErr
  /-- NumPy shape mismatch / index errors. -/
  | indexError : PyErr
  deriving DecidableEq, Repr

instance {ε α : Type} [DecidableEq ε] [DecidableEq α] : DecidableEq (Except ε α) := fun
  | .ok a, .ok b => decidable_of_iff (a = b) (by simp)
  | .ok _, .error _ => isFalse (by simp)
  | .error _, .ok _ => isFalse (by simp)
  | .error e, .error f => decidable_of_iff (e = f) (by simp)

/-- `hist_bins(values, bin_size)` from `pyminflux/analysis/_analysis.py`.

Follows the source line by line:
* empty input raises `ValueError("No data.")`;
* `min_value = bin_size * int(np.min(values) / bin_size)` — when
  `bin_size == 0` the NumPy float division yields `inf`/`nan` and the `int()`
  conversion raises (`OverflowError`/`ValueError`) before the explicit
  `bin_size <= 0.0` check is reached; we model this with
  `PyErr.intConversion`;
* the `bin_size <= 0.0` check therefore only ever fires for negative
  `bin_size`;
* `num_bins = math.floor((max_value - min_value) / bin_size) + 1`;
* `bin_edges = np.arange(min_value - bin_size/2,
  min_value + num_bins*bin_size, bin_size)`; `bin_centers` averages
  consecutive edges; the returned width is `bin_size`. -/
def hist_bins (values : List ℚ) (bin_size : ℚ) :
    Except PyErr (List ℚ × List ℚ × ℚ) :=
  if values = [] then .error .emptyInput
  else if bin_size = 0 then .error .intConversion
  else if bin_size ≤ 0 then .error .invalidParameter
  else
    let min_value : ℚ := bin_size * (ratTrunc (npMin values / bin_size) : ℚ)
    let max_value : ℚ := npMax values
    let num_bins : ℤ := ⌊(max_value - min_value) / bin_size⌋ + 1
    let half_width : ℚ := bin_size / 2
    let bin_edges : List ℚ :=
      npArange (min_value - half_width)
        (min_value + (num_bins : ℚ) * bin_size) bin_size
    let bin_centers : List ℚ :=
      List.zipWith (fun a b => (a + b) / 2) bin_edges.dropLast bin_edges.tail
    .ok (bin_edges, bin_centers, bin_size)

/-- `ideal_hist_bins(values, scott)` from
`pyminflux/analysis/_analysis.py`.

The Freedman-Diaconis / Scott bin width
`bin_size = factor * scipy.stats.iqr(values) / num_values ** (1/3)` involves
an irrational cube root, so that whole expression is abstracted as the
`binRule` oracle parameter (it is only evaluated on the non-degenerate
branch, which no claim below exercises numerically).  The rest follows the
source:
* empty input raises `ValueError("No data.")`;
* if all consecutive differences are zero (`np.all(np.diff(values) == 0)`),
  return the single-bin fallback
  `((v - 5e-7, v + 5e-7), (v,), 1e-6)` centred on `v = values[0]`;
* otherwise take `bin_size = binRule values`, replace it by
  `0.5*(min+max)` when it is zero, build the same anchored edge grid as
  `hist_bins` (anchored at `min_value = np.min(values)` directly), and
  finally recompute the width as `bin_edges[1] - bin_edges[0]` when at least
  two edges exist. -/
def ideal_hist_bins (binRule : List ℚ → ℚ) (values : List ℚ) :
    Except PyErr (List ℚ × List ℚ × ℚ) :=
  if values = [] then .error .emptyInput
  else if (List.zipWith (fun a b => b - a) values.dropLast values.tail).all
      (fun d => d = 0) then
    let v : ℚ := values.headD 0
    .ok ([v - 5/10000000, v + 5/10000000], [v], 1/1000000)
  else
    let bin_size0 : ℚ := binRule values
    let min_value : ℚ := npMin values
    let max_value : ℚ := npMax values
    let bin_size : ℚ :=
      if bin_size0 = 0 then (min_value + max_value) / 2 else bin_size0
    let num_bins : ℤ := ⌊(max_value - min_value) / bin_size⌋ + 1
    let half_width : ℚ := bin_size / 2
    let bin_edges : List ℚ :=
      npArange (min_value - half_width)
        (min_value + (num_bins : ℚ) * bin_size) bin_size
    let bin_centers : List ℚ :=
      List.zipWith (fun a b => (a + b) / 2) bin_edges.dropLast bin_edges.tail
    let bin_size' : ℚ :=
      match bin_edges with
      | e0 :: e1 :: _ => e1 - e0
      | _ => bin_size
    .ok (bin_edges, bin_centers, bin_size')

/-- NumPy `np.histogram(values, bins=edges, density=False)` counts: bin `i`
(for `i < M-1`) counts values with `edges[i] ≤ v < edges[i+1]`; the last bin
is closed on the right. -/
def npHistogramCounts (values : List ℚ) (edges : List ℚ) : List ℚ :=
  match edges with
  | [] => []
  | _ :: es =>
    (List.range es.length).map (fun i =>
      let lo := edges.getD i 0
      let hi := edges.getD (i + 1) 0
      ((values.filter (fun v =>
        if i + 1 = es.length then lo ≤ v ∧ v ≤ hi
        else lo ≤ v ∧ v < hi)).length : ℚ))

/-- `prepare_histogram(values, normalize, auto_bins, scott, bin_size)` from
`pyminflux/analysis/_analysis.py`.  The `scott` flag only changes the
constant inside the abstracted `binRule` oracle, so it is folded into
`binRule`.  When `auto_bins` is false and `bin_size == 0.0` the function
raises a plain `Exception` before any other check. -/
def prepare_histogram (binRule : List ℚ → ℚ) (values : List ℚ)
    (normalize : Bool) (auto_bins : Bool) (bin_size : ℚ) :
    Except PyErr (List ℚ × List ℚ × List ℚ × ℚ) := do
  let (bin_edges, bin_centers, bin_width) ←
    if auto_bins then ideal_hist_bins binRule values
    else if bin_size = 0 then .error .genericException
    else hist_bins values bin_size
  let n : List ℚ := npHistogramCounts values bin_edges
  let n : List ℚ := if normalize then n.map (fun c => c / n.sum) else n
  .ok (n, bin_edges, bin_centers, bin_width)

/-- NumPy `np.median`: middle element of the sorted data for odd length,
average of the two middle elements for even length. -/
def npMedian (l : List ℚ) : ℚ :=
  let s := l.mergeSort (fun a b => a ≤ b)
  if l.length % 2 = 1 then s.getD (l.length / 2) 0
  else (s.getD (l.length / 2 - 1) 0 + s.getD (l.length / 2) 0) / 2

/-- `get_robust_threshold(values, factor)` from
`pyminflux/analysis/_analysis.py`.  The input may contain NaNs (`none`);
they are dropped first.  Returns `(None, None, None, None)` when nothing
remains, otherwise `(med + factor*mad, med - factor*mad, med, mad)` with
`med = np.median(work_values)` and
`mad = scipy.stats.median_abs_deviation(work_values, scale=0.67449)
     = median(|v - med|) / 0.67449`. -/
def get_robust_threshold (values : List (Option ℚ)) (factor : ℚ) :
    Option ℚ × Option ℚ × Option ℚ × Option ℚ :=
  let work_values : List ℚ := values.filterMap id
  if work_values = [] then (none, none, none, none)
  else
    let med : ℚ := npMedian work_values
    let mad : ℚ := npMedian (work_values.map (fun v => |v - med|)) / (67449/100000)
    let step : ℚ := factor * mad
    (some (med + step), some (med - step), some med, some mad)

/-- Render mode of `render_xy` (the source validates a lowercased string and
raises on anything but these two). -/
inductive RenderType where
  | histogram : RenderType
  | fixed_gaussian : RenderType
  deriving DecidableEq, Repr

/-- Update cell `(r, c)` of a row-major grid: replace it by `f` of its old
value (NumPy `h[r, c] = f(h[r, c])`); out-of-range indices leave the grid
unchanged (unreachable for the masked writes performed by `render_xy`). -/
def gridModify (g : List (List ℚ)) (r c : ℕ) (f : ℚ → ℚ) :
    List (List ℚ) :=
  g.set r ((g.getD r []).set c (f ((g.getD r []).getD c 0)))

/-- Sum of all cells of a grid. -/
def gridSum (g : List (List ℚ)) : ℚ :=
  (g.map (fun row => row.sum)).sum

/-- Default iteration record used for NumPy indexing defaults (never hit on
indices produced by `find_last_valid_iteration`, which are in range). -/
structure ItrRec where
  loc : ℚ × ℚ × ℚ
  efo : ℚ
  cfr : ℚ
  eco : ℚ
  dcr : ℚ
  deriving DecidableEq, Repr

def defaultItr : ItrRec := ⟨(0, 0, 0), 0, 0, 0, 0⟩

/-- `render_xy(x, y, sx, sy, rx, ry, render_type, fwhm)` from
`pyminflux/analysis/_analysis.py`.

Oracle parameters (irrational library calls):
* `expK t` models `np.exp(-4*np.log(2) * t)`, the Gaussian kernel entry at
  normalized squared distance `t`;
* `sqrtO` models `np.sqrt`, used for the default
  `fwhm = 3*sqrt(sx^2 + sy^2)`.

Error modelling: mismatched `x`/`y` lengths break NumPy broadcasting
(`indexError`); an omitted range on empty data makes `x.min()` raise
(`emptyInput`); `sx == 0` or `sy == 0` makes `int(np.ceil(inf))` raise
(`intConversion`); negative computed dimensions make `np.zeros` raise
(`invalidParameter`).

In `histogram` mode the returned mask is the in-range mask over all input
points and each included point increments cell
`(Ny - iy - 1, ix)`.  In `fixed_gaussian` mode the source *rebinds* `m` to
the border mask computed over the already-filtered points
(`m = (ix >= L+1) & (ix < Nx-L-1) & (iy > L+1) & (iy < Ny-L-1)`, with a
strict `>` on the lower `iy` bound), filters again, and splats a
`(2L+1)×(2L+1)` kernel patch around each surviving point. -/
def render_xy (expK : ℚ → ℚ) (sqrtO : ℚ → ℚ) (x y : List ℚ) (sx sy : ℚ)
    (rx ry : Option (ℚ × ℚ)) (render_type : RenderType) (fwhm : Option ℚ) :
    Except PyErr (List (List ℚ) × List ℚ × List ℚ × List Bool) :=
  if x.length ≠ y.length then .error .indexError
  else if (rx = none ∧ x = []) ∨ (ry = none ∧ y = []) then .error .emptyInput
  else if sx = 0 ∨ sy = 0 then .error .intConversion
  else
    let rxv : ℚ × ℚ := rx.getD (npMin x, npMax x)
    let ryv : ℚ × ℚ := ry.getD (npMin y, npMax y)
    let Nx : ℤ := ⌈(rxv.2 - rxv.1) / sx⌉
    let Ny : ℤ := ⌈(ryv.2 - ryv.1) / sy⌉
    if Nx < 0 ∨ Ny < 0 then .error .invalidParameter
    else
      let h0 : List (List ℚ) :=
        List.replicate Ny.toNat (List.replicate Nx.toNat (0 : ℚ))
      let px : List ℚ := x.map (fun v => (v - rxv.1) / sx)
      let py : List ℚ := y.map (fun v => (v - ryv.1) / sy)
      let ix : List ℤ := px.map roundHalfEven
      let iy : List ℤ := py.map roundHalfEven
      let m : List Bool := List.zipWith
        (fun a b => decide (0 ≤ a) && decide (a < Nx) &&
          decide (0 ≤ b) && decide (b < Ny)) ix iy
      let px1 := maskFilter px m
      let py1 := maskFilter py m
      let ix1 := maskFilter ix m
      let iy1 := maskFilter iy m
      let xi : List ℚ :=
        (List.range Nx.toNat).map (fun k : ℕ => rxv.1 + (k : ℚ) * sx + sx / 2)
      let yi : List ℚ :=
        (List.range Ny.toNat).map (fun k : ℕ => ryv.1 + (k : ℚ) * sy + sy / 2)
      match render_type with
      | .histogram =>
        let h := (ix1.zip iy1).foldl
          (fun g p => gridModify g (Ny - p.2 - 1).toNat p.1.toNat (· + 1)) h0
        .ok (h, xi, yi, m)
      | .fixed_gaussian =>
        let fw : ℚ := fwhm.getD (3 * sqrtO (sx ^ 2 + sy ^ 2))
        let wx : ℚ := fw / sx
        let wy : ℚ := fw / sy
        let L : ℤ := ⌈2 * max wx wy⌉
        let g : List ℤ :=
          (List.range (2 * L + 1).toNat).map (fun k : ℕ => (k : ℤ) - L)
        let m2 : List Bool := List.zipWith
          (fun a b => decide (L + 1 ≤ a) && decide (a < Nx - L - 1) &&
            decide (L + 1 < b) && decide (b < Ny - L - 1)) ix1 iy1
        let px2 := maskFilter px1 m2
        let py2 := maskFilter py1 m2
        let ix2 := maskFilter ix1 m2
        let iy2 := maskFilter iy1 m2
        let h := ((px2.zip py2).zip (ix2.zip iy2)).foldl
          (fun acc (p : (ℚ × ℚ) × (ℤ × ℤ)) =>
            let dx : ℚ := p.1.1 - (p.2.1 : ℚ)
            let dy : ℚ := p.1.2 - (p.2.2 : ℚ)
            (g.foldl (fun accr (yk : ℤ) =>
              (g.foldl (fun accc (xk : ℤ) =>
                let k : ℚ := expK (((xk : ℚ) - dx) ^ 2 / wx ^ 2 +
                  ((yk : ℚ) - dy) ^ 2 / wy ^ 2)
                gridModify accc (Ny - (p.2.2 + yk) - 1).toNat
                  (p.2.1 + xk).toNat (· + k)) accr)) acc))
          h0
        .ok (h, xi, yi, m2)

/-- Raw MINFLUX record: scalar fields `tid`, `tim`, `vld`, `fluo` plus the
per-iteration sub-array `itr` (fields `loc`, `efo`, `cfr`, `eco`, `dcr`). -/
structure RawRecord where
  tid : ℤ
  tim : ℚ
  vld : Bool
  fluo : ℤ
  itr : List ItrRec
  deriving DecidableEq, Repr

/-- Decoded per-localization row (columns of the processed dataframe). -/
structure ProcessedRow where
  tid : ℤ
  tim : ℚ
  x : ℚ
  y : ℚ
  z : ℚ
  efo : ℚ
  cfr : ℚ
  eco : ℚ
  dcr : ℚ
  dwell : ℚ
  fluo : ℤ
  deriving DecidableEq, Repr

/-- `MinFluxReader._process` from `pyminflux/reader/_reader.py`.

Row selection keeps entries with `vld == valid`.  The fluorophore column is
taken from the selected `fluo` values, except that the source tests
`np.all(fluo) == 0`: `np.all` is the all-entries-nonzero test, so the
comparison with `0` is `True` exactly when *some* selected entry is zero (in
particular when all are zero), and in that case the whole column is replaced
by ones.  Each per-iteration field is read at its own resolved iteration
index (or at the single iteration when aggregated), positions are scaled by
`unit_scaling` (1e9) and `z` additionally by `z_scaling`, and
`dwell = np.around(eco / (efo / 1000.0), decimals=0)`. -/
def minflux_process (data : List RawRecord) (valid : Bool)
    (unit_scaling z_scaling : ℚ) (is_aggregated : Bool)
    (loc_index efo_index cfr_index eco_index dcr_index : ℕ) :
    List ProcessedRow :=
  let rows := data.filter (fun r => r.vld == valid)
  let fluoRaw : List ℤ := rows.map (fun r => r.fluo)
  let fluoCol : List ℤ :=
    if fluoRaw.any (fun f => f == 0) then List.replicate fluoRaw.length 1
    else fluoRaw
  (rows.zip fluoCol).map (fun p =>
    let r := p.1
    let at_ : ℕ → ItrRec := fun i =>
      if is_aggregated then r.itr.headD defaultItr else r.itr.getD i defaultItr
    let locIt := at_ loc_index
    let efoV := (at_ efo_index).efo
    let cfrV := (at_ cfr_index).cfr
    let ecoV := (at_ eco_index).eco
    let dcrV := (at_ dcr_index).dcr
    { tid := r.tid, tim := r.tim,
      x := locIt.loc.1 * unit_scaling,
      y := locIt.loc.2.1 * unit_scaling,
      z := locIt.loc.2.2 * unit_scaling * z_scaling,
      efo := efoV, cfr := cfrV, eco := ecoV, dcr := dcrV,
      dwell := (roundHalfEven (ecoV / (efoV / 1000)) : ℚ),
      fluo := p.2 })

/-- Default `min_num_loc_per_trace` from `pyminflux/state/_state.py`
(`State.__init__`). -/
def stateDefaultMinNumLocPerTrace : ℕ := 1

/-- `MinFluxProcessor` state: the reader's processed table, the cached
filtered table, the `State.min_num_loc_per_trace` configuration value, and
the statistics dirty bit. -/
structure ProcState where
  processed : List ProcessedRow
  filtered : Option (List ProcessedRow)
  minNumLocPerTrace : ℕ
  statsDirty : Bool
  deriving DecidableEq, Repr

/-- The global trace-length filter: keep the rows whose `tid` occurs at
least `minNum` times in the table being filtered (pandas
`value_counts` / `isin` idiom from `_apply_global_filters`). -/
def globalFilter (minNum : ℕ) (df : List ProcessedRow) : List ProcessedRow :=
  df.filter (fun r => minNum ≤ df.countP (fun s => s.tid == r.tid))

/-- `MinFluxProcessor._apply_global_filters`: starts from the *current
filtered* dataframe when one exists, otherwise from the reader's processed
dataframe, applies `globalFilter`, caches the result and marks the
statistics dirty. -/
def applyGlobalFilters (st : ProcState) : ProcState :=
  let df := st.filtered.getD st.processed
  { st with
    filtered := some (globalFilter st.minNumLocPerTrace df)
    statsDirty := true }

/-- Dataframe columns the range filter can address. -/
inductive Col where
  | tid | tim | x | y | z | efo | cfr | eco | dcr | dwell | fluo
  deriving DecidableEq, Repr

/-- Column projection of a processed row. -/
def ProcessedRow.get (r : ProcessedRow) : Col → ℚ
  | .tid => (r.tid : ℚ)
  | .tim => r.tim
  | .x => r.x
  | .y => r.y
  | .z => r.z
  | .efo => r.efo
  | .cfr => r.cfr
  | .eco => r.eco
  | .dcr => r.dcr
  | .dwell => r.dwell
  | .fluo => (r.fluo : ℚ)

/-- `MinFluxProcessor.apply_range_filter(prop, min_threshold,
max_threshold)`: returns unchanged when either threshold is `None`,
otherwise re-applies the global filters (on the current filtered table),
then keeps the rows with `min_threshold < df[prop] < max_threshold`
(both strict) and caches the result. -/
def applyRangeFilter (st : ProcState) (prop : Col)
    (minT maxT : Option ℚ) : ProcState :=
  match minT, maxT with
  | some mn, some mx =>
    let st' := applyGlobalFilters st
    let df := st'.filtered.getD []
    { st' with
      filtered := some (df.filter (fun r =>
        decide (mn < r.get prop) && decide (r.get prop < mx)))
      statsDirty := true }
  | _, _ => st

/-- `MinFluxProcessor.__init__`: caches are empty and the global filters are
applied once (so `filtered` is derived from the processed dataframe). -/
def initProcessor (processed : List ProcessedRow) (minNum : ℕ) : ProcState :=
  applyGlobalFilters
    { processed := processed, filtered := none,
      minNumLocPerTrace := minNum, statsDirty := false }

/-- `MinFluxProcessor.reset`: drops the filtered dataframe and re-applies
the global filters, so the result is derived from the processed table. -/
def resetProcessor (st : ProcState) : ProcState :=
  applyGlobalFilters { st with filtered := none }

/-- Per-trace statistics row before `fillna`: the `sx`, `sy`, `sz` sample
standard deviations are `none` when pandas produces `NaN`. -/
structure StatRowRaw where
  tid : ℤ
  n : ℕ
  mx : ℚ
  my : ℚ
  mz : ℚ
  sx : Option ℚ
  sy : Option ℚ
  sz : Option ℚ
  deriving DecidableEq, Repr

/-- Per-trace statistics row after `fillna(0.0)`. -/
structure StatRow where
  tid : ℤ
  n : ℕ
  mx : ℚ
  my : ℚ
  mz : ℚ
  sx : ℚ
  sy : ℚ
  sz : ℚ
  deriving DecidableEq, Repr

/-- pandas sample standard deviation (`ddof=1`): `NaN` (`none`) for groups
of at most one element, otherwise `sqrt(Σ(v-mean)^2 / (n-1))`; the square
root is the oracle `sqrtO`. -/
def sampleStd (sqrtO : ℚ → ℚ) (l : List ℚ) : Option ℚ :=
  if l.length ≤ 1 then none
  else
    let m : ℚ := l.sum / (l.length : ℚ)
    some (sqrtO ((l.map (fun v => (v - m) ^ 2)).sum / ((l.length : ℚ) - 1)))

/-- The sorted distinct trace ids of a table (pandas `groupby("tid")`
enumerates groups in sorted key order). -/
def sortedTids (df : List ProcessedRow) : List ℤ :=
  ((df.map (fun r => r.tid)).mergeSort (fun a b => a ≤ b)).dedup

/-- `MinFluxProcessor._calculate_statistics` before the `fillna` step:
per-trace first tid, count, coordinate means and sample standard
deviations. -/
def calcStatsRaw (sqrtO : ℚ → ℚ) (df : List ProcessedRow) :
    List StatRowRaw :=
  (sortedTids df).map (fun t =>
    let g := df.filter (fun r => r.tid == t)
    { tid := t, n := g.length,
      mx := (g.map (fun r => r.x)).sum / (g.length : ℚ),
      my := (g.map (fun r => r.y)).sum / (g.length : ℚ),
      mz := (g.map (fun r => r.z)).sum / (g.length : ℚ),
      sx := sampleStd sqrtO (g.map (fun r => r.x)),
      sy := sampleStd sqrtO (g.map (fun r => r.y)),
      sz := sampleStd sqrtO (g.map (fun r => r.z)) })

/-- `MinFluxProcessor._calculate_statistics`: the raw statistics with the
`sx`, `sy`, `sz` columns passed through `fillna(value=0.0)`. -/
def calculate_statistics (sqrtO : ℚ → ℚ) (df : List ProcessedRow) :
    List StatRow :=
  (calcStatsRaw sqrtO df).map (fun r =>
    { tid := r.tid, n := r.n, mx := r.mx, my := r.my, mz := r.mz,
      sx := r.sx.getD 0, sy := r.sy.getD 0, sz := r.sz.getD 0 })

/-- The cut `idx = qi < np.max(qi)*0.8` that discards the top 20% of the
frequency range in `img_fourier_ring_correlation`. -/
def frcCutMask (qi : List ℚ) : List Bool :=
  qi.map (fun v => decide (v < npMax qi * (8/10)))

/-- Tail of `img_fourier_ring_correlation` from
`pyminflux/fourier/_fourier.py`, from the radially binned curve onward.

The spectral pipeline producing the binned frequencies `qi` and raw
correlations `ci` (FFTs, complex conjugation, Gaussian smoothing, the
`sqrt(bj*cj)` magnitudes and the `q` grid) is irrational/floating-point and
enters here as the two input lists; `sg` abstracts
`scipy.signal.savgol_filter(ci, 7, 1)` (only its output enters the result).
The source then:
* cuts the top of the frequency range (`idx = qi < np.max(qi)*0.8`, the
  boolean mask `frcCutMask qi`) from both arrays;
* smooths: `ci = savgol_filter(ci, 7, 1)`;
* picks `q_critical = qi[np.where(ci < 1/7)[0][0]]` when `np.any(ci < 1/7)`
  and `qi[-1]` otherwise, returning `1/q_critical` along with `qi` and the
  smoothed `ci`. -/
def frc_tail (sg : List ℚ → List ℚ) (qi ci : List ℚ) :
    Except PyErr (ℚ × List ℚ × List ℚ) :=
  if qi = [] then .error .emptyInput
  else if ci.length ≠ qi.length then .error .indexError
  else
    let qi' := maskFilter qi (frcCutMask qi)
    let ci' := maskFilter ci (frcCutMask qi)
    let ciSm := sg ci'
    match ciSm.findIdx? (fun v => decide (v < 1/7)) with
    | some i =>
      match qi'[i]? with
      | some q => .ok (1 / q, qi', ciSm)
      | none => .error .indexError
    | none =>
      match qi'.getLast? with
      | some q => .ok (1 / q, qi', ciSm)
      | none => .error .indexError

/-- Elementwise fallible map (the per-repetition calls of the loop below,
packaged so theorems can speak about all repetitions succeeding). -/
def mapExcept {α β ε : Type} (f : α → Except ε β) : List α → Except ε (List β)
  | [] => .ok []
  | a :: l => do
    let b ← f a
    let bs ← mapExcept f l
    .ok (b :: bs)

/-- The repetition loop of `estimate_resolution_by_frc` from
`pyminflux/fourier/_fourier.py`.

Each repetition of the source partitions the localizations with seeded
Bernoulli(0.5) draws, renders the two halves with the *same* `rx`, `ry`,
`sx`, `sy`, and runs `img_fourier_ring_correlation` on the two images; the
per-repetition binned inputs to the correlation tail are abstracted here as
the list `reps` (one `(qi, ci)` pair per repetition).  The loop stores
`resolutions[r]`, lazily allocates `cis` with the length of the first
repetition's curve (`np.zeros((len(ci), num_reps))`) and assigns columns
`cis[:, r] = ci` (a NumPy broadcast error when a later curve has a
different length), keeps the last repetition's `qi`, and finally returns
`np.mean(resolutions)` and `np.mean(cis, axis=1)`. -/
def estimate_resolution_loop (sg : List ℚ → List ℚ)
    (reps : List (List ℚ × List ℚ)) :
    Except PyErr (ℚ × List ℚ × List ℚ) := do
  let out ← reps.foldlM
    (fun (acc : List ℚ × Option (ℕ × List (List ℚ)) × List ℚ) rep => do
      let (res, qi, ci) ← frc_tail sg rep.1 rep.2
      match acc.2.1 with
      | none => pure (acc.1 ++ [res], some (ci.length, [ci]), qi)
      | some (n, cs) =>
        if ci.length = n then pure (acc.1 ++ [res], some (n, cs ++ [ci]), qi)
        else .error .indexError)
    ([], none, [])
  match out.2.1 with
  | none => .error .indexError
  | some (n, cs) =>
    let resolution : ℚ := out.1.sum / (out.1.length : ℚ)
    let ciMean : List ℚ :=
      (List.range n).map (fun j =>
        (cs.map (fun c => c.getD j 0)).sum / (cs.length : ℚ))
    .ok (resolution, out.2.2, ciMean)

/-! ## Theorems -/

/-- Claim C7: for every values array with at least one value left after NaN
removal, `get_robust_threshold` returns
`scaled_mad = median(|v - median(v)|)/0.67449`,
`upper = median + factor*scaled_mad` and
`lower = median - factor*scaled_mad`, all computed over the NaN-free
values; and it returns `(None, None, None, None)` exactly when no values
remain after NaN removal. -/
theorem get_robust_threshold_correct (values : List (Option ℚ)) (factor : ℚ) :
    (get_robust_threshold values factor = (none, none, none, none) ↔
      values.filterMap id = []) ∧
    (values.filterMap id ≠ [] →
      get_robust_threshold values factor =
        (some (npMedian (values.filterMap id) + factor *
            (npMedian ((values.filterMap id).map
              (fun v => |v - npMedian (values.filterMap id)|)) /
              (67449/100000))),
         some (npMedian (values.filterMap id) - factor *
            (npMedian ((values.filterMap id).map
              (fun v => |v - npMedian (values.filterMap id)|)) /
              (67449/100000))),
         some (npMedian (values.filterMap id)),
         some (npMedian ((values.filterMap id).map
            (fun v => |v - npMedian (values.filterMap id)|)) /
            (67449/100000)))) := by
  unfold get_robust_threshold
  by_cases h : values.filterMap id = []
  · simp [h]
  · simp [h]

/-- Witness for C7: the spec's own example data
`[1, 2, 3, 4, 5, 100]` (with an interspersed NaN) has a nonempty NaN-free
part, and the thresholds follow the median/MAD formulas. -/
theorem get_robust_threshold_correct_witness :
    (([some 1, none, some 2, some 3, some 4, some 5, some 100] :
        List (Option ℚ)).filterMap id ≠ []) ∧
    get_robust_threshold
        [some 1, none, some 2, some 3, some 4, some 5, some 100] 2 =
      (some (npMedian ([1, 2, 3, 4, 5, 100] : List ℚ) + 2 *
          (npMedian (([1, 2, 3, 4, 5, 100] : List ℚ).map
            (fun v => |v - npMedian ([1, 2, 3, 4, 5, 100] : List ℚ)|)) /
            (67449/100000))),
       some (npMedian ([1, 2, 3, 4, 5, 100] : List ℚ) - 2 *
          (npMedian (([1, 2, 3, 4, 5, 100] : List ℚ).map
            (fun v => |v - npMedian ([1, 2, 3, 4, 5, 100] : List ℚ)|)) /
            (67449/100000))),
       some (npMedian ([1, 2, 3, 4, 5, 100] : List ℚ)),
       some (npMedian (([1, 2, 3, 4, 5, 100] : List ℚ).map
          (fun v => |v - npMedian ([1, 2, 3, 4, 5, 100] : List ℚ)|)) /
          (67449/100000))) := by
  refine ⟨by simp, ?_⟩
  have h :=
    (get_robust_threshold_correct
      [some 1, none, some 2, some 3, some 4, some 5, some 100] 2).2 (by simp)
  simpa using h

/-- All consecutive differences of a constant list vanish. -/
theorem zipWith_diff_all_zero (values : List ℚ) (v : ℚ)
    (hall : ∀ w ∈ values, w = v) :
    (List.zipWith (fun a b => b - a) values.dropLast values.tail).all
      (fun d => d = 0) = true := by
  induction values with
  | nil => rfl
  | cons a t ih =>
    cases t with
    | nil => rfl
    | cons b u =>
      have ha : a = v := hall a (by simp)
      have hb : b = v := hall b (by simp)
      have hrest : ∀ w ∈ b :: u, w = v := fun w hw => hall w (by simp [hw])
      have ih' := ih hrest
      simp only [List.dropLast_cons₂, List.tail_cons, List.zipWith_cons_cons,
        List.all_cons, Bool.and_eq_true] at ih' ⊢
      constructor
      · simp [ha, hb]
      · exact ih'

/-- Claim C9: on every non-empty all-identical values array the automatic
binning returns a single bin of width `1e-6` centred on the value, with
edges `(value - 5e-7, value + 5e-7)`. -/
theorem ideal_hist_bins_degenerate (binRule : List ℚ → ℚ) (values : List ℚ)
    (v : ℚ) (hne : values ≠ []) (hall : ∀ w ∈ values, w = v) :
    ideal_hist_bins binRule values =
      .ok ([v - 5/10000000, v + 5/10000000], [v], 1/1000000) := by
  unfold ideal_hist_bins
  rw [if_neg hne, if_pos (zipWith_diff_all_zero values v hall)]
  have hh : values.headD 0 = v := by
    cases values with
    | nil => exact absurd rfl hne
    | cons a t => simpa using hall a (by simp)
  rw [hh]

/-- Witness for C9: the spec's degenerate example `[5.0, 5.0, 5.0]` yields
single-bin edges `(4.9999995, 5.0000005)` of width `1e-6`. -/
theorem ideal_hist_bins_degenerate_witness :
    (([5, 5, 5] : List ℚ) ≠ []) ∧
    ideal_hist_bins (fun _ => 0) [5, 5, 5] =
      .ok ([(4.9999995 : ℚ), (5.0000005 : ℚ)], [5], (0.000001 : ℚ)) := by
  refine ⟨by simp, ?_⟩
  have h := ideal_hist_bins_degenerate (fun _ => 0) [5, 5, 5] 5
    (by simp) (by intro w hw; simpa using hw)
  rw [h]
  norm_num

theorem foldl_min_le_init (l : List ℚ) (a : ℚ) : l.foldl min a ≤ a := by
  induction l generalizing a with
  | nil => simp
  | cons x t ih => exact le_trans (ih (min a x)) (min_le_left a x)

theorem init_le_foldl_max (l : List ℚ) (a : ℚ) : a ≤ l.foldl max a := by
  induction l generalizing a with
  | nil => simp
  | cons x t ih => exact le_trans (le_max_left a x) (ih (max a x))

theorem npMin_le_npMax (l : List ℚ) : npMin l ≤ npMax l :=
  le_trans (foldl_min_le_init l _) (init_le_foldl_max l _)

theorem ratTrunc_cast_lt_add_one (q : ℚ) : (ratTrunc q : ℚ) < q + 1 := by
  unfold ratTrunc
  split
  · exact lt_of_le_of_lt (Int.floor_le q) (by linarith)
  · exact Int.ceil_lt_add_one q

theorem npArange_length (s t p : ℚ) (hp : p ≠ 0) :
    (npArange s t p).length = (⌈(t - s) / p⌉).toNat := by
  rw [npArange, if_neg hp]
  simp

theorem npArange_getD (s t p : ℚ) (hp : p ≠ 0) (i : ℕ)
    (hi : i < (⌈(t - s) / p⌉).toNat) :
    (npArange s t p).getD i 0 = s + (i : ℚ) * p := by
  rw [npArange, if_neg hp, List.getD_eq_getElem?_getD, List.getElem?_map,
    List.getElem?_range hi]
  simp

theorem ceil_int_mul_add_half (nb : ℤ) (bs : ℚ) (hbs : bs ≠ 0) :
    ⌈((nb : ℚ) * bs + bs / 2) / bs⌉ = nb + 1 := by
  have h : ((nb : ℚ) * bs + bs / 2) / bs = 1/2 + (nb : ℚ) := by
    field_simp
    ring
  rw [h, Int.ceil_add_int]
  have h12 : (⌈(1/2 : ℚ)⌉ : ℤ) = 1 := by
    rw [Int.ceil_eq_iff]
    norm_num
  rw [h12]
  ring

/-- Counterexample for claim C3: on `values = [-1.5]`, `bin_size = 1`, the
code anchors with Python `int()` (truncation toward zero, giving `-1`)
rather than `floor` (`-2`), and counts bins from the anchored minimum
rather than from `min(values)`: the produced edge list is `[-1.5]` (no
complete bin at all), while the claim predicts a first edge at `-2.5` and
`floor((max-min)/bin_size)+1 = 1` bin. -/
theorem hist_bins_claim_counterexample :
    hist_bins [(-3/2 : ℚ)] 1 = .ok ([(-3/2 : ℚ)], ([] : List ℚ), 1) ∧
    (1 : ℚ) * ((⌊(-3/2 : ℚ) / 1⌋ : ℤ) : ℚ) - 1/2 ≠ (-3/2 : ℚ) ∧
    (⌊((-3/2 : ℚ) - (-3/2 : ℚ)) / 1⌋ + 1).toNat ≠ ([] : List ℚ).length := by
  refine ⟨?_, by norm_num, by norm_num⟩
  have h1 : ([(-3/2 : ℚ)] : List ℚ) ≠ [] := by simp
  have htr : ratTrunc ((-3/2 : ℚ) / 1) = -1 := by
    rw [ratTrunc, if_neg (by norm_num),
      show ((-3/2 : ℚ)/1) = -(3/2) by norm_num, Int.ceil_neg]
    norm_num
  have hmin : npMin [(-3/2 : ℚ)] = -3/2 := by simp [npMin]
  have hmax : npMax [(-3/2 : ℚ)] = -3/2 := by simp [npMax]
  simp only [hist_bins, if_neg h1, hmin, hmax, htr]
  rw [if_neg (by norm_num), if_neg (by norm_num)]
  have hfl : (⌊((-3/2 : ℚ) - 1 * ((-1 : ℤ) : ℚ)) / 1⌋ : ℤ) = -1 := by
    norm_num
  rw [hfl]
  have har : npArange (1 * ((-1 : ℤ) : ℚ) - 1 / 2)
      (1 * ((-1 : ℤ) : ℚ) + ((-1 + 1 : ℤ) : ℚ) * 1) 1 = [(-3/2 : ℚ)] := by
    rw [npArange, if_neg (by norm_num)]
    have h : (⌈((1 * ((-1 : ℤ) : ℚ) + ((-1 + 1 : ℤ) : ℚ) * 1) -
        (1 * ((-1 : ℤ) : ℚ) - 1 / 2)) / 1⌉ : ℤ) = 1 := by
      rw [Int.ceil_eq_iff]
      norm_num
    rw [h, show (1 : ℤ).toNat = 1 from rfl, show List.range 1 = [0] from rfl]
    simp
    norm_num
  rw [har]
  simp

/-- Claim C3 (amended): for every non-empty values array and every
`bin_size > 0`, the fixed-mode binning anchors the first bin on
`bin_size * int(min(values)/bin_size)` — Python `int()` truncation toward
zero, not `floor` — with the first edge half a bin-width before that
anchor, and the number of bins is
`floor((max(values) - anchor)/bin_size) + 1` (computed from the anchored
minimum, not from `min(values)`; it can be `0`, in which case no complete
bin is produced and the first bin with its centre does not exist). -/
theorem hist_bins_fixed_spec (values : List ℚ) (bin_size : ℚ)
    (hne : values ≠ []) (hpos : 0 < bin_size) :
    ∃ edges centers : List ℚ,
      hist_bins values bin_size = .ok (edges, centers, bin_size) ∧
      edges.getD 0 0 =
        bin_size * (ratTrunc (npMin values / bin_size) : ℚ) - bin_size / 2 ∧
      centers.length = (⌊(npMax values -
          bin_size * (ratTrunc (npMin values / bin_size) : ℚ)) / bin_size⌋
        + 1).toNat ∧
      (1 ≤ ⌊(npMax values -
          bin_size * (ratTrunc (npMin values / bin_size) : ℚ)) / bin_size⌋
        + 1 →
        centers.getD 0 0 =
          bin_size * (ratTrunc (npMin values / bin_size) : ℚ)) := by
  have hbs0 : bin_size ≠ 0 := ne_of_gt hpos
  simp only [hist_bins, if_neg hne, if_neg hbs0, if_neg (not_le.mpr hpos)]
  set A : ℚ := bin_size * (ratTrunc (npMin values / bin_size) : ℚ) with hA
  set nb : ℤ := ⌊(npMax values - A) / bin_size⌋ + 1 with hnb
  have hAlt : A < npMin values + bin_size := by
    have ht := ratTrunc_cast_lt_add_one (npMin values / bin_size)
    have h2 : bin_size * (ratTrunc (npMin values / bin_size) : ℚ) <
        bin_size * (npMin values / bin_size + 1) :=
      (mul_lt_mul_left hpos).mpr ht
    have h3 : bin_size * (npMin values / bin_size + 1) =
        npMin values + bin_size := by
      field_simp
    rw [hA]
    linarith
  have hnb0 : 0 ≤ nb := by
    have hq : (-1 : ℚ) ≤ (npMax values - A) / bin_size := by
      rw [le_div_iff₀ hpos]
      have := npMin_le_npMax values
      linarith
    have hf : (-1 : ℤ) ≤ ⌊(npMax values - A) / bin_size⌋ :=
      Int.le_floor.mpr (by exact_mod_cast hq)
    omega
  have hceil : ⌈((A + (nb : ℚ) * bin_size) - (A - bin_size / 2)) /
      bin_size⌉ = nb + 1 := by
    rw [show (A + (nb : ℚ) * bin_size) - (A - bin_size / 2) =
      (nb : ℚ) * bin_size + bin_size / 2 by ring]
    exact ceil_int_mul_add_half nb bin_size hbs0
  have hlenE : (npArange (A - bin_size / 2) (A + (nb : ℚ) * bin_size)
      bin_size).length = (nb + 1).toNat := by
    rw [npArange_length _ _ _ hbs0, hceil]
  have he0 : (npArange (A - bin_size / 2) (A + (nb : ℚ) * bin_size)
      bin_size).getD 0 0 = A - bin_size / 2 := by
    have h0 : 0 < (⌈((A + (nb : ℚ) * bin_size) - (A - bin_size / 2)) /
        bin_size⌉).toNat := by
      rw [hceil]
      omega
    rw [npArange_getD _ _ _ hbs0 0 h0]
    norm_num
  refine ⟨_, _, rfl, by rw [he0], ?_, ?_⟩
  · rw [List.length_zipWith, List.length_dropLast, List.length_tail, hlenE,
      min_self]
    omega
  · intro hnb1
    have hlen2 : 2 ≤ (npArange (A - bin_size / 2) (A + (nb : ℚ) * bin_size)
        bin_size).length := by
      rw [hlenE]
      omega
    have he1 : (npArange (A - bin_size / 2) (A + (nb : ℚ) * bin_size)
        bin_size).getD 1 0 = A - bin_size / 2 + 1 * bin_size := by
      have h1 : 1 < (⌈((A + (nb : ℚ) * bin_size) - (A - bin_size / 2)) /
          bin_size⌉).toNat := by
        rw [hceil]
        omega
      rw [npArange_getD _ _ _ hbs0 1 h1]
      norm_num
    rcases hEeq : npArange (A - bin_size / 2) (A + (nb : ℚ) * bin_size)
        bin_size with _ | ⟨e0, tl⟩
    · rw [hEeq] at hlen2
      simp at hlen2
    · rcases tl with _ | ⟨e1, rest⟩
      · rw [hEeq] at hlen2
        simp at hlen2
      · rw [hEeq] at he0 he1
        simp only [List.getD_cons_zero] at he0
        simp only [List.getD_cons_succ, List.getD_cons_zero] at he1
        simp only [List.dropLast_cons₂, List.tail_cons,
          List.zipWith_cons_cons, List.getD_cons_zero]
        rw [he0, he1]
        ring

/-- Witness for the amended C3: concrete run on `values = [1.5, 3.4]`,
`bin_size = 1` (anchor `1`, first edge `0.5`, three bins). -/
theorem hist_bins_fixed_spec_witness :
    (([3/2, 17/5] : List ℚ) ≠ []) ∧ ((0 : ℚ) < 1) ∧
    (∃ edges centers : List ℚ,
      hist_bins [3/2, 17/5] 1 = .ok (edges, centers, 1) ∧
      edges.getD 0 0 =
        1 * (ratTrunc (npMin [3/2, 17/5] / 1) : ℚ) - 1 / 2 ∧
      centers.length = (⌊(npMax [3/2, 17/5] -
          1 * (ratTrunc (npMin [3/2, 17/5] / 1) : ℚ)) / 1⌋ + 1).toNat ∧
      (1 ≤ ⌊(npMax [3/2, 17/5] -
          1 * (ratTrunc (npMin [3/2, 17/5] / 1) : ℚ)) / 1⌋ + 1 →
        centers.getD 0 0 =
          1 * (ratTrunc (npMin [3/2, 17/5] / 1) : ℚ))) :=
  ⟨by simp, by norm_num,
    hist_bins_fixed_spec [3/2, 17/5] 1 (by simp) (by norm_num)⟩

/-- Claim C8 at its failing input (code bug): binning on empty input does
raise the empty-input error, and a *negative* fixed `bin_size` raises the
invalid-parameter error; but `hist_bins` with `bin_size = 0` fails with the
`int()`-conversion error produced by `int(np.min(values)/0.0)` on line 55
of `_analysis.py`, *before* its own `bin_size <= 0` invalid-parameter check
on lines 61-62 can fire.  (`prepare_histogram` guards `bin_size == 0`
separately with a generic `Exception`, which it raises even for empty
input.)  In every failure case no histogram specification is returned. -/
theorem hist_bins_zero_bin_size_bug :
    hist_bins ([] : List ℚ) 1 = .error .emptyInput ∧
    ideal_hist_bins (fun _ => 0) ([] : List ℚ) = .error .emptyInput ∧
    prepare_histogram (fun _ => 0) ([] : List ℚ) true true 0 =
      .error .emptyInput ∧
    hist_bins [(1 : ℚ)] (-1) = .error .invalidParameter ∧
    hist_bins [(1 : ℚ)] 0 = .error .intConversion ∧
    hist_bins [(1 : ℚ)] 0 ≠ .error .invalidParameter ∧
    prepare_histogram (fun _ => 0) [(1 : ℚ)] true false 0 =
      .error .genericException ∧
    prepare_histogram (fun _ => 0) ([] : List ℚ) true false 0 =
      .error .genericException := by
  refine ⟨by simp [hist_bins], by simp [ideal_hist_bins], ?_, ?_, ?_, ?_,
    ?_, ?_⟩
  · simp [prepare_histogram, ideal_hist_bins, Bind.bind, Except.bind]
  · rw [hist_bins, if_neg (by simp), if_neg (by norm_num),
      if_pos (by norm_num)]
  · rw [hist_bins, if_neg (by simp), if_pos rfl]
  · rw [hist_bins, if_neg (by simp), if_pos rfl]
    simp
  · simp [prepare_histogram, Bind.bind, Except.bind]
  · simp [prepare_histogram, Bind.bind, Except.bind]

/-- Claim C2 at its failing input (code bug): for two selected rows with
raw fluorophore ids `[0, 2]` — which contain a nonzero value, so by the
spec the column should be kept as `[0, 2]` — the decoder replaces the whole
column with ones, because `np.all(fluo) == 0` is `True` whenever *some*
entry is zero (`np.all` is the all-nonzero test), not only when the field
is entirely zero.  The dwell part of the claim does hold on the same input:
with `eco = 5`, `efo = 2000`, `dwell = round(5 / (2000/1000)) = 2`. -/
theorem minflux_process_fluo_bug :
    (minflux_process
      [{ tid := 1, tim := 0, vld := true, fluo := 0,
         itr := [⟨(0, 0, 0), 2000, 0, 5, 0⟩] },
       { tid := 1, tim := 0, vld := true, fluo := 2,
         itr := [⟨(0, 0, 0), 2000, 0, 5, 0⟩] }] true 1 1 true 0 0 0 0 0).map
      (fun r => r.fluo) = [1, 1] ∧
    (([{ tid := 1, tim := 0, vld := true, fluo := 0,
         itr := [⟨(0, 0, 0), 2000, 0, 5, 0⟩] },
       { tid := 1, tim := 0, vld := true, fluo := 2,
         itr := [⟨(0, 0, 0), 2000, 0, 5, 0⟩] }] :
        List RawRecord).filter (fun r => r.vld == true)).map
      (fun r => r.fluo) = [0, 2] ∧
    ([1, 1] : List ℤ) ≠ [0, 2] ∧
    (minflux_process
      [{ tid := 1, tim := 0, vld := true, fluo := 0,
         itr := [⟨(0, 0, 0), 2000, 0, 5, 0⟩] },
       { tid := 1, tim := 0, vld := true, fluo := 2,
         itr := [⟨(0, 0, 0), 2000, 0, 5, 0⟩] }] true 1 1 true 0 0 0 0 0).map
      (fun r => r.dwell) = [2, 2] := by
  have hrd : roundHalfEven ((5 : ℚ) / (2000 / 1000)) = 2 := by
    rw [roundHalfEven]
    have hfl : (⌊(5 : ℚ) / (2000 / 1000)⌋ : ℤ) = 2 := by norm_num
    rw [hfl, if_neg (by norm_num), if_neg (by norm_num),
      if_pos (by decide)]
  refine ⟨?_, by simp, by simp, ?_⟩
  · simp [minflux_process]
  · simp [minflux_process, defaultItr, hrd]

theorem countP_tid_pos (df : List ProcessedRow) (r : ProcessedRow)
    (hr : r ∈ df) : 1 ≤ df.countP (fun s => s.tid == r.tid) := by
  have h : 0 < df.countP (fun s => s.tid == r.tid) :=
    List.countP_pos_iff.mpr ⟨r, hr, beq_self_eq_true r.tid⟩
  omega

/-- With `min_num_loc_per_trace ≤ 1` the global trace-length filter keeps
every row (each row witnesses its own trace at least once). -/
theorem globalFilter_of_minNum_le_one (minNum : ℕ) (h : minNum ≤ 1)
    (df : List ProcessedRow) : globalFilter minNum df = df := by
  unfold globalFilter
  apply List.filter_eq_self.mpr
  intro r hr
  have h1 := countP_tid_pos df r hr
  simpa using le_trans h h1

/-- The global trace-length filter is idempotent: it removes all rows of a
trace or none, so surviving traces keep their full multiplicity. -/
theorem globalFilter_idem (minNum : ℕ) (df : List ProcessedRow) :
    globalFilter minNum (globalFilter minNum df) = globalFilter minNum df := by
  conv_lhs => rw [globalFilter]
  apply List.filter_eq_self.mpr
  intro r hr
  rw [globalFilter] at hr
  have hq : decide (minNum ≤ df.countP (fun s => s.tid == r.tid)) = true :=
    (List.mem_filter.mp hr).2
  have hcnt : (globalFilter minNum df).countP (fun s => s.tid == r.tid) =
      df.countP (fun s => s.tid == r.tid) := by
    rw [globalFilter, List.countP_filter]
    apply List.countP_congr
    intro a _
    constructor
    · intro ha
      simp only [Bool.and_eq_true] at ha
      exact ha.1
    · intro ha
      simp only [Bool.and_eq_true]
      refine ⟨ha, ?_⟩
      have htid : a.tid = r.tid := by simpa using ha
      simpa [htid] using hq
  simp only [decide_eq_true_eq] at hq ⊢
  rw [hcnt]
  exact hq

/-- Claim C1 (amended): when `min_num_loc_per_trace ≤ 1` (the default is
`1`), applying the same range filter twice leaves the whole processor state
— in particular the filtered dataframe — equal to the result of the first
call; and a range filter applied after a `reset` derives its result from
the canonical processed table (global filter then range filter).  Without a
reset, each filter application starts from the *current* filtered
dataframe, so applications compound instead of re-deriving from the
processed table (see the counterexample). -/
theorem applyRangeFilter_reapplication (st : ProcState) (prop : Col)
    (mn mx : Option ℚ) (h : st.minNumLocPerTrace ≤ 1) :
    applyRangeFilter (applyRangeFilter st prop mn mx) prop mn mx =
      applyRangeFilter st prop mn mx ∧
    (∀ a b : ℚ, mn = some a → mx = some b →
      (applyRangeFilter (resetProcessor st) prop mn mx).filtered =
        some ((globalFilter st.minNumLocPerTrace st.processed).filter
          (fun r => decide (a < r.get prop) && decide (r.get prop < b)))) := by
  cases mn with
  | none =>
    refine ⟨rfl, ?_⟩
    intro a b hab
    exact absurd hab (by simp)
  | some a' =>
    cases mx with
    | none =>
      refine ⟨rfl, ?_⟩
      intro a b _ hb
      exact absurd hb (by simp)
    | some b' =>
      constructor
      · simp only [applyRangeFilter, applyGlobalFilters, Option.getD_some,
          globalFilter_of_minNum_le_one _ h, List.filter_filter]
        simp
      · intro a b ha hb
        cases ha
        cases hb
        simp only [applyRangeFilter, resetProcessor, applyGlobalFilters,
          Option.getD_some, Option.getD_none, globalFilter_idem]

/-- Counterexample for claim C1.  First three conjuncts: with
`min_num_loc_per_trace = 2` and a single trace `[x=5, x=100]`, the range
filter `0 < x < 10` applied twice empties the table (`some []`), while the
first application had kept the `x=5` row — reapplication is not a no-op,
because `_apply_global_filters` recounts traces on the already-filtered
table.  Last three conjuncts: even with the default
`min_num_loc_per_trace = 1`, applying `0 < x < 10` and then `20 < x < 30`
yields `some []`, whereas deriving the second filter from the canonical
processed table would keep the `x=25` row — filters compound on the
previously filtered table. -/
theorem processor_filter_counterexample :
    (applyRangeFilter (applyRangeFilter
        (initProcessor [⟨1, 0, 5, 0, 0, 0, 0, 0, 0, 0, 1⟩,
          ⟨1, 0, 100, 0, 0, 0, 0, 0, 0, 0, 1⟩] 2)
        .x (some 0) (some 10)) .x (some 0) (some 10)).filtered =
      some [] ∧
    (applyRangeFilter
        (initProcessor [⟨1, 0, 5, 0, 0, 0, 0, 0, 0, 0, 1⟩,
          ⟨1, 0, 100, 0, 0, 0, 0, 0, 0, 0, 1⟩] 2)
        .x (some 0) (some 10)).filtered =
      some [⟨1, 0, 5, 0, 0, 0, 0, 0, 0, 0, 1⟩] ∧
    (some ([] : List ProcessedRow) ≠
      some [(⟨1, 0, 5, 0, 0, 0, 0, 0, 0, 0, 1⟩ : ProcessedRow)]) ∧
    (applyRangeFilter (applyRangeFilter
        (initProcessor [⟨1, 0, 5, 0, 0, 0, 0, 0, 0, 0, 1⟩,
          ⟨2, 0, 25, 0, 0, 0, 0, 0, 0, 0, 1⟩] 1)
        .x (some 0) (some 10)) .x (some 20) (some 30)).filtered =
      some [] ∧
    (globalFilter 1 [⟨1, 0, 5, 0, 0, 0, 0, 0, 0, 0, 1⟩,
        ⟨2, 0, 25, 0, 0, 0, 0, 0, 0, 0, 1⟩]).filter
      (fun r => decide ((20 : ℚ) < r.get .x) && decide (r.get .x < 30)) =
      [⟨2, 0, 25, 0, 0, 0, 0, 0, 0, 0, 1⟩] ∧
    (some ([] : List ProcessedRow) ≠
      some [(⟨2, 0, 25, 0, 0, 0, 0, 0, 0, 0, 1⟩ : ProcessedRow)]) := by
  refine ⟨?_, ?_, by simp, ?_, ?_, by simp⟩
  · norm_num [initProcessor, applyRangeFilter, applyGlobalFilters,
      globalFilter, ProcessedRow.get, List.countP_cons]
  · norm_num [initProcessor, applyRangeFilter, applyGlobalFilters,
      globalFilter, ProcessedRow.get, List.countP_cons]
  · norm_num [initProcessor, applyRangeFilter, applyGlobalFilters,
      globalFilter, ProcessedRow.get, List.countP_cons]
  · norm_num [globalFilter, ProcessedRow.get, List.countP_cons]

/-- Witness for the amended C1: a processor initialized with the default
`min_num_loc_per_trace = 1` on a one-row table satisfies both amended
properties for the range filter `0 < x < 10`. -/
theorem applyRangeFilter_reapplication_witness :
    ((initProcessor [⟨1, 0, 5, 0, 0, 0, 0, 0, 0, 0, 1⟩]
        stateDefaultMinNumLocPerTrace).minNumLocPerTrace ≤ 1) ∧
    (applyRangeFilter (applyRangeFilter
        (initProcessor [⟨1, 0, 5, 0, 0, 0, 0, 0, 0, 0, 1⟩]
          stateDefaultMinNumLocPerTrace) .x (some 0) (some 10))
        .x (some 0) (some 10) =
      applyRangeFilter
        (initProcessor [⟨1, 0, 5, 0, 0, 0, 0, 0, 0, 0, 1⟩]
          stateDefaultMinNumLocPerTrace) .x (some 0) (some 10) ∧
    (∀ a b : ℚ, (some 0 : Option ℚ) = some a → (some 10 : Option ℚ) = some b →
      (applyRangeFilter (resetProcessor
          (initProcessor [⟨1, 0, 5, 0, 0, 0, 0, 0, 0, 0, 1⟩]
            stateDefaultMinNumLocPerTrace)) .x (some 0) (some 10)).filtered =
        some ((globalFilter
            (initProcessor [⟨1, 0, 5, 0, 0, 0, 0, 0, 0, 0, 1⟩]
              stateDefaultMinNumLocPerTrace).minNumLocPerTrace
            (initProcessor [⟨1, 0, 5, 0, 0, 0, 0, 0, 0, 0, 1⟩]
              stateDefaultMinNumLocPerTrace).processed).filter
          (fun r => decide (a < r.get .x) && decide (r.get .x < b))))) := by
  constructor
  · simp [initProcessor, applyGlobalFilters, stateDefaultMinNumLocPerTrace]
  · exact applyRangeFilter_reapplication
      (initProcessor [⟨1, 0, 5, 0, 0, 0, 0, 0, 0, 0, 1⟩]
        stateDefaultMinNumLocPerTrace) .x (some 0) (some 10)
      (by simp [initProcessor, applyGlobalFilters,
        stateDefaultMinNumLocPerTrace])

theorem sampleStd_eq_none_iff (sqrtO : ℚ → ℚ) (l : List ℚ) :
    sampleStd sqrtO l = none ↔ l.length ≤ 1 := by
  unfold sampleStd
  by_cases h : l.length ≤ 1
  · simp [h]
  · simp [h]

theorem mem_sortedTids (df : List ProcessedRow) (t : ℤ) :
    t ∈ sortedTids df ↔ t ∈ df.map (fun r => r.tid) := by
  unfold sortedTids
  rw [List.mem_dedup]
  exact (List.mergeSort_perm (df.map (fun r => r.tid)) _).mem_iff

theorem filter_tid_length_pos (df : List ProcessedRow) (t : ℤ)
    (ht : t ∈ df.map (fun r => r.tid)) :
    0 < (df.filter (fun r => r.tid == t)).length := by
  obtain ⟨r, hr, rfl⟩ := List.mem_map.mp ht
  have hmem : r ∈ df.filter (fun s => s.tid == r.tid) :=
    List.mem_filter.mpr ⟨hr, by simp⟩
  exact List.length_pos.mpr (List.ne_nil_of_mem hmem)

/-- Claim C10: the default `min_num_loc_per_trace` is `1`; in the raw
per-trace statistics the `sx`, `sy`, `sz` sample standard deviations are
`NaN` (`none`) exactly for single-localization traces (every trace has at
least one row); and in the final statistics table — whose deviation columns
are everywhere `NaN`-free by the `fillna(0.0)` step — single-localization
traces report `sx = sy = sz = 0.0`. -/
theorem per_trace_stats_no_nan (sqrtO : ℚ → ℚ) (df : List ProcessedRow) :
    stateDefaultMinNumLocPerTrace = 1 ∧
    (∀ r ∈ calcStatsRaw sqrtO df, 1 ≤ r.n ∧
      (r.sx = none ↔ r.n = 1) ∧ (r.sy = none ↔ r.n = 1) ∧
      (r.sz = none ↔ r.n = 1)) ∧
    (∀ r ∈ calculate_statistics sqrtO df,
      (∃ r0 ∈ calcStatsRaw sqrtO df, r.tid = r0.tid ∧ r.n = r0.n ∧
        r.sx = r0.sx.getD 0 ∧ r.sy = r0.sy.getD 0 ∧ r.sz = r0.sz.getD 0) ∧
      (r.n = 1 → r.sx = 0 ∧ r.sy = 0 ∧ r.sz = 0)) := by
  have hraw : ∀ r ∈ calcStatsRaw sqrtO df, 1 ≤ r.n ∧
      (r.sx = none ↔ r.n = 1) ∧ (r.sy = none ↔ r.n = 1) ∧
      (r.sz = none ↔ r.n = 1) := by
    intro r hr
    obtain ⟨t, ht, rfl⟩ := List.mem_map.mp hr
    have htid := (mem_sortedTids df t).mp ht
    have hpos := filter_tid_length_pos df t htid
    refine ⟨hpos, ?_, ?_, ?_⟩
    all_goals
      rw [sampleStd_eq_none_iff]
      simp only [List.length_map]
      omega
  refine ⟨rfl, hraw, ?_⟩
  intro r hr
  obtain ⟨r0, hr0, rfl⟩ := List.mem_map.mp hr
  refine ⟨⟨r0, hr0, rfl, rfl, rfl, rfl, rfl⟩, ?_⟩
  intro h1
  obtain ⟨-, hx, hy, hz⟩ := hraw r0 hr0
  refine ⟨?_, ?_, ?_⟩
  · rw [hx.mpr h1]
    rfl
  · rw [hy.mpr h1]
    rfl
  · rw [hz.mpr h1]
    rfl

theorem sortedTids_singleton (r : ProcessedRow) :
    sortedTids [r] = [r.tid] := by
  unfold sortedTids
  have hperm := List.mergeSort_perm ([r].map (fun s => s.tid))
    (fun a b => a ≤ b)
  rw [show ([r].map (fun s => s.tid)) = [r.tid] by simp] at hperm
  simp only [List.map_cons, List.map_nil]
  rw [List.perm_singleton.mp hperm]
  simp

/-- Witness for C10: a table with one single-localization trace produces
the statistics row `(tid=1, n=1, mx=5, my=0, mz=0, sx=0, sy=0, sz=0)`. -/
theorem per_trace_stats_no_nan_witness :
    calculate_statistics (fun q => q) [⟨1, 0, 5, 0, 0, 0, 0, 0, 0, 0, 1⟩] =
      [⟨1, 1, 5, 0, 0, 0, 0, 0⟩] ∧
    ((⟨1, 1, 5, 0, 0, 0, 0, 0⟩ : StatRow).n = 1 →
      (⟨1, 1, 5, 0, 0, 0, 0, 0⟩ : StatRow).sx = 0 ∧
      (⟨1, 1, 5, 0, 0, 0, 0, 0⟩ : StatRow).sy = 0 ∧
      (⟨1, 1, 5, 0, 0, 0, 0, 0⟩ : StatRow).sz = 0) := by
  have heval : calculate_statistics (fun q => q)
      [⟨1, 0, 5, 0, 0, 0, 0, 0, 0, 0, 1⟩] = [⟨1, 1, 5, 0, 0, 0, 0, 0⟩] := by
    norm_num [calculate_statistics, calcStatsRaw, sortedTids_singleton,
      sampleStd]
  refine ⟨heval, ?_⟩
  have h := (per_trace_stats_no_nan (fun q => q)
    [⟨1, 0, 5, 0, 0, 0, 0, 0, 0, 0, 1⟩]).2.2
    ⟨1, 1, 5, 0, 0, 0, 0, 0⟩ (by rw [heval]; simp)
  exact h.2

theorem sum_set_rat (l : List ℚ) (n : ℕ) (v : ℚ) (h : n < l.length) :
    (l.set n v).sum = l.sum + (v - l.getD n 0) := by
  induction l generalizing n with
  | nil => simp at h
  | cons a t ih =>
    cases n with
    | zero =>
      simp only [List.set_cons_zero, List.sum_cons, List.getD_cons_zero]
      ring
    | succ k =>
      have hk : k < t.length := by simpa using h
      simp only [List.set_cons_succ, List.sum_cons, List.getD_cons_succ]
      rw [ih k hk]
      ring

theorem gridModify_length (g : List (List ℚ)) (r c : ℕ) (f : ℚ → ℚ) :
    (gridModify g r c f).length = g.length := by
  simp [gridModify]

theorem gridModify_row_length (g : List (List ℚ)) (r c : ℕ) (f : ℚ → ℚ)
    (Nx : ℕ) (hr : r < g.length) (h : ∀ row ∈ g, row.length = Nx) :
    ∀ row ∈ gridModify g r c f, row.length = Nx := by
  intro row hrow
  rcases List.mem_or_eq_of_mem_set hrow with h0 | h1
  · exact h row h0
  · have hmem : g.getD r [] ∈ g :=
      List.getD_eq_getElem g [] hr ▸ List.getElem_mem hr
    rw [h1, List.length_set]
    exact h _ hmem

theorem gridSum_modify (g : List (List ℚ)) (r c : ℕ) (hr : r < g.length)
    (hc : c < (g.getD r []).length) :
    gridSum (gridModify g r c (· + 1)) = gridSum g + 1 := by
  have hmem : g.getD r [] ∈ g :=
    List.getD_eq_getElem g [] hr ▸ List.getElem_mem hr
  have hmap : r < (g.map (fun row => row.sum)).length := by
    simpa using hr
  have hgetd : (g.map (fun row => row.sum)).getD r 0 =
      (g.getD r []).sum := by
    rw [List.getD_eq_getElem _ _ hmap, List.getD_eq_getElem g [] hr,
      List.getElem_map]
  unfold gridModify gridSum
  rw [List.map_set, sum_set_rat _ _ _ hmap, hgetd,
    sum_set_rat _ _ _ hc]
  ring

/-- Sum of the histogram-accumulation fold: each in-range point adds
exactly `1` to one grid cell. -/
theorem histFold_sum (Ny Nx : ℤ) (pts : List (ℤ × ℤ)) (g : List (List ℚ))
    (hg1 : g.length = Ny.toNat) (hg2 : ∀ row ∈ g, row.length = Nx.toNat)
    (hpts : ∀ p ∈ pts, 0 ≤ p.1 ∧ p.1 < Nx ∧ 0 ≤ p.2 ∧ p.2 < Ny) :
    gridSum (pts.foldl (fun acc p =>
      gridModify acc (Ny - p.2 - 1).toNat p.1.toNat (· + 1)) g) =
    gridSum g + (pts.length : ℚ) := by
  induction pts generalizing g with
  | nil => simp
  | cons p pt ih =>
    obtain ⟨hp1, hp2, hp3, hp4⟩ := hpts p (by simp)
    have hr : (Ny - p.2 - 1).toNat < g.length := by
      rw [hg1]
      omega
    have hrow : (g.getD (Ny - p.2 - 1).toNat []) ∈ g :=
      List.getD_eq_getElem g [] hr ▸ List.getElem_mem hr
    have hc : p.1.toNat < (g.getD (Ny - p.2 - 1).toNat []).length := by
      rw [hg2 _ hrow]
      omega
    simp only [List.foldl_cons]
    rw [ih (gridModify g (Ny - p.2 - 1).toNat p.1.toNat (· + 1))
      (by rw [gridModify_length, hg1])
      (gridModify_row_length _ _ _ _ _ hr hg2)
      (fun q hq => hpts q (by simp [hq]))]
    rw [gridSum_modify g _ _ hr hc]
    simp only [List.length_cons]
    push_cast
    ring

theorem maskFilter_cons_true {α : Type} (x : α) (xt : List α)
    (bt : List Bool) :
    maskFilter (x :: xt) (true :: bt) = x :: maskFilter xt bt := by
  simp [maskFilter]

theorem maskFilter_cons_false {α : Type} (x : α) (xt : List α)
    (bt : List Bool) :
    maskFilter (x :: xt) (false :: bt) = maskFilter xt bt := by
  simp [maskFilter]

theorem maskFilter_length {α : Type} (a : List α) (m : List Bool)
    (h : a.length = m.length) :
    (maskFilter a m).length = m.countP id := by
  induction m generalizing a with
  | nil =>
    cases a
    · simp [maskFilter]
    · simp at h
  | cons b bt ih =>
    cases a with
    | nil => simp at h
    | cons x xt =>
      have hx : xt.length = bt.length := by simpa using h
      cases b
      · simpa [maskFilter_cons_false, List.countP_cons] using ih xt hx
      · simpa [maskFilter_cons_true, List.countP_cons] using ih xt hx

theorem maskFilter_zip {α β : Type} (a : List α) (b : List β) (m : List Bool)
    (ha : a.length = m.length) (hb : b.length = m.length) :
    (maskFilter a m).zip (maskFilter b m) = maskFilter (a.zip b) m := by
  induction m generalizing a b with
  | nil =>
    cases a
    · simp [maskFilter]
    · simp at ha
  | cons c ct ih =>
    cases a with
    | nil => simp at ha
    | cons x xt =>
      cases b with
      | nil => simp at hb
      | cons y yt =>
        have hx : xt.length = ct.length := by simpa using ha
        have hy : yt.length = ct.length := by simpa using hb
        cases c
        · simpa [maskFilter_cons_false] using ih xt yt hx hy
        · simpa [maskFilter_cons_true] using ih xt yt hx hy

theorem mem_maskFilter_zipWith {α β : Type} (pred : α → β → Bool)
    (lx : List α) (ly : List β) (p : α × β)
    (hp : p ∈ maskFilter (lx.zip ly) (List.zipWith pred lx ly)) :
    pred p.1 p.2 = true := by
  induction lx generalizing ly with
  | nil => simp [maskFilter] at hp
  | cons x xt ih =>
    cases ly with
    | nil => simp [maskFilter] at hp
    | cons y yt =>
      rcases hxy : pred x y with hfalse | htrue
      · rw [List.zip_cons_cons, List.zipWith_cons_cons, hxy,
          maskFilter_cons_false] at hp
        exact ih yt hp
      · rw [List.zip_cons_cons, List.zipWith_cons_cons, hxy,
          maskFilter_cons_true] at hp
        rcases List.mem_cons.mp hp with h0 | h1
        · rw [h0]
          exact hxy
        · exact ih yt h1

theorem mask_all_getD_iff (pred : ℤ → ℤ → Bool) (fx fy : ℚ → ℚ)
    (x y : List ℚ) (hlen : x.length = y.length) :
    (∀ e ∈ List.zipWith pred ((x.map fx).map roundHalfEven)
        ((y.map fy).map roundHalfEven), id e = true) ↔
      ∀ i < x.length, pred (roundHalfEven (fx (x.getD i 0)))
        (roundHalfEven (fy (y.getD i 0))) = true := by
  simp only [id_eq]
  constructor
  · intro hall i hi
    have hiy0 : i < y.length := by omega
    have him : i < (List.zipWith pred ((x.map fx).map roundHalfEven)
        ((y.map fy).map roundHalfEven)).length := by
      rw [List.length_zipWith]
      simp only [List.length_map]
      omega
    have hv := hall _ (List.getElem_mem him)
    rw [List.getElem_zipWith] at hv
    simp only [List.getElem_map] at hv
    rwa [List.getD_eq_getElem x 0 hi, List.getD_eq_getElem y 0 hiy0]
  · intro hP e hem
    obtain ⟨i, him, hei⟩ := List.mem_iff_getElem.mp hem
    have hi : i < x.length := by
      rw [List.length_zipWith] at him
      simp only [List.length_map] at him
      omega
    have hiy0 : i < y.length := by omega
    have hPi := hP i hi
    rw [List.getD_eq_getElem x 0 hi, List.getD_eq_getElem y 0 hiy0] at hPi
    rw [← hei, List.getElem_zipWith]
    simp only [List.getElem_map]
    exact hPi

/-- Claim C5: for every set of `N` input points rendered by `render_xy` in
histogram mode (with explicit ranges and positive resolutions), the sum of
all cells of the returned grid equals the number of points for which the
returned mask is true; `mask.countP id ≤ N` always, with equality exactly
when every point's rounded pixel indices fall within `[0, Nx) × [0, Ny)`. -/
theorem render_xy_histogram_sum (expK sqrtO : ℚ → ℚ) (x y : List ℚ)
    (sx sy a b c d : ℚ) (fwhm : Option ℚ)
    (hlen : x.length = y.length) (hsx : 0 < sx) (hsy : 0 < sy)
    (hab : a ≤ b) (hcd : c ≤ d) :
    ∃ h xi yi m, render_xy expK sqrtO x y sx sy (some (a, b)) (some (c, d))
        RenderType.histogram fwhm = .ok (h, xi, yi, m) ∧
      m.length = x.length ∧
      gridSum h = (m.countP id : ℚ) ∧
      m.countP id ≤ x.length ∧
      (m.countP id = x.length ↔ ∀ i < x.length,
        0 ≤ roundHalfEven ((x.getD i 0 - a) / sx) ∧
        roundHalfEven ((x.getD i 0 - a) / sx) < ⌈(b - a) / sx⌉ ∧
        0 ≤ roundHalfEven ((y.getD i 0 - c) / sy) ∧
        roundHalfEven ((y.getD i 0 - c) / sy) < ⌈(d - c) / sy⌉) := by
  simp only [render_xy, Option.getD_some]
  rw [if_neg (show ¬ x.length ≠ y.length by simp [hlen])]
  rw [if_neg (show ¬ ((some (a, b) = none ∧ x = []) ∨
    (some (c, d) = none ∧ y = [])) by simp)]
  rw [if_neg (show ¬ (sx = 0 ∨ sy = 0) by simp [hsx.ne', hsy.ne'])]
  rw [if_neg (show ¬ ((⌈(b - a) / sx⌉ : ℤ) < 0 ∨ (⌈(d - c) / sy⌉ : ℤ) < 0) by
    push_neg
    exact ⟨Int.ceil_nonneg (div_nonneg (by linarith) hsx.le),
      Int.ceil_nonneg (div_nonneg (by linarith) hsy.le)⟩)]
  set Nx : ℤ := ⌈(b - a) / sx⌉ with hNx
  set Ny : ℤ := ⌈(d - c) / sy⌉ with hNy
  set ix : List ℤ := List.map roundHalfEven
    (List.map (fun v => (v - a) / sx) x) with hix
  set iy : List ℤ := List.map roundHalfEven
    (List.map (fun v => (v - c) / sy) y) with hiy
  set pred : ℤ → ℤ → Bool := fun u v =>
    decide (0 ≤ u) && decide (u < Nx) && decide (0 ≤ v) && decide (v < Ny)
    with hpred
  set m : List Bool := List.zipWith pred ix iy with hm
  have hlix : ix.length = x.length := by simp [hix]
  have hliy : iy.length = y.length := by simp [hiy]
  have hlm : m.length = x.length := by
    rw [hm, List.length_zipWith, hlix, hliy, hlen, min_self]
  have hmix : ix.length = m.length := by rw [hlm, hlix]
  have hmiy : iy.length = m.length := by rw [hlm, hliy, hlen]
  refine ⟨_, _, _, _, rfl, hlm, ?_, ?_, ?_⟩
  · -- grid sum equals count of true mask entries
    rw [maskFilter_zip ix iy m hmix hmiy]
    rw [histFold_sum Ny Nx _ _ (by simp) ?rows ?bounds]
    case rows =>
      intro row hrow
      rw [List.eq_of_mem_replicate hrow]
      simp
    case bounds =>
      intro p hp
      have hpt := mem_maskFilter_zipWith pred ix iy p hp
      rw [hpred] at hpt
      simp only [Bool.and_eq_true, decide_eq_true_eq] at hpt
      exact ⟨hpt.1.1.1, hpt.1.1.2, hpt.1.2, hpt.2⟩
    · rw [maskFilter_length _ _ (by rw [List.length_zip, hmix, hmiy, min_self])]
      simp [gridSum, List.map_replicate, List.sum_replicate]
  · rw [← hlm]
    exact List.countP_le_length id
  · have hiff := mask_all_getD_iff pred (fun v => (v - a) / sx)
      (fun v => (v - c) / sy) x y hlen
    rw [← hix, ← hiy, ← hm] at hiff
    constructor
    · intro hcnt i hi
      have hall : ∀ e ∈ m, id e = true :=
        (List.countP_eq_length).mp (by rw [hcnt, hlm])
      have hPi := hiff.mp hall i hi
      rw [hpred] at hPi
      simp only [Bool.and_eq_true, decide_eq_true_eq] at hPi
      exact ⟨hPi.1.1.1, hPi.1.1.2, hPi.1.2, hPi.2⟩
    · intro hP
      have hall : ∀ i < x.length, pred
          (roundHalfEven ((fun v => (v - a) / sx) (x.getD i 0)))
          (roundHalfEven ((fun v => (v - c) / sy) (y.getD i 0))) = true := by
        intro i hi
        obtain ⟨h1, h2, h3, h4⟩ := hP i hi
        rw [hpred]
        simp only [Bool.and_eq_true, decide_eq_true_eq]
        exact ⟨⟨⟨h1, h2⟩, h3⟩, h4⟩
      have := (List.countP_eq_length).mpr (hiff.mpr hall)
      rw [this, hlm]

/-- Witness for C5: two points, one inside the unit grid and one outside;
the grid sums to `1`, the mask count is `1 < 2`, matching the fact that the
second point's pixel index is out of range. -/
theorem render_xy_histogram_sum_witness :
    (([(1/2 : ℚ), 7] : List ℚ).length = ([(1/2 : ℚ), 1/2] : List ℚ).length) ∧
    ((0 : ℚ) < 1) ∧
    (∃ h xi yi m, render_xy (fun q => q) (fun q => q) [(1/2 : ℚ), 7]
        [(1/2 : ℚ), 1/2] 1 1 (some (0, 1)) (some (0, 1))
        RenderType.histogram none = .ok (h, xi, yi, m) ∧
      m.length = ([(1/2 : ℚ), 7] : List ℚ).length ∧
      gridSum h = (m.countP id : ℚ) ∧
      m.countP id ≤ ([(1/2 : ℚ), 7] : List ℚ).length ∧
      (m.countP id = ([(1/2 : ℚ), 7] : List ℚ).length ↔
        ∀ i < ([(1/2 : ℚ), 7] : List ℚ).length,
        0 ≤ roundHalfEven ((([(1/2 : ℚ), 7] : List ℚ).getD i 0 - 0) / 1) ∧
        roundHalfEven ((([(1/2 : ℚ), 7] : List ℚ).getD i 0 - 0) / 1) <
          ⌈((1 : ℚ) - 0) / 1⌉ ∧
        0 ≤ roundHalfEven ((([(1/2 : ℚ), 1/2] : List ℚ).getD i 0 - 0) / 1) ∧
        roundHalfEven ((([(1/2 : ℚ), 1/2] : List ℚ).getD i 0 - 0) / 1) <
          ⌈((1 : ℚ) - 0) / 1⌉)) :=
  ⟨by simp, by norm_num,
    render_xy_histogram_sum (fun q => q) (fun q => q) [(1/2 : ℚ), 7]
      [(1/2 : ℚ), 1/2] 1 1 0 1 0 1 none (by simp) (by norm_num) (by norm_num)
      (by norm_num) (by norm_num)⟩

theorem zipWith_getD_pred (pred : ℤ → ℤ → Bool) (lx ly : List ℤ) (j : ℕ)
    (hx : j < lx.length) (hy : j < ly.length) :
    (List.zipWith pred lx ly).getD j false =
      pred (lx.getD j 0) (ly.getD j 0) := by
  have hj : j < (List.zipWith pred lx ly).length := by
    rw [List.length_zipWith]
    omega
  rw [List.getD_eq_getElem _ _ hj, List.getD_eq_getElem _ _ hx,
    List.getD_eq_getElem _ _ hy, List.getElem_zipWith]

theorem roundHalfEven_eq_self (q : ℚ) (n : ℤ) (h : q = (n : ℚ)) :
    roundHalfEven q = n := by
  subst h
  rw [roundHalfEven]
  rw [Int.floor_intCast]
  rw [if_pos (by norm_num)]

theorem getD_map_of_lt {α β : Type} (g : α → β) (l : List α) (i : ℕ)
    (h : i < l.length) (d : β) (d2 : α) :
    (l.map g).getD i d = g (l.getD i d2) := by
  rw [List.getD_eq_getElem _ _ (by simpa using h), List.getD_eq_getElem _ _ h,
    List.getElem_map]

/-- Claim C4 (amended): in histogram mode the returned mask has exactly one
entry per original input point, true precisely when the point's rounded
pixel indices fall inside `[0, Nx) × [0, Ny)`.  In `fixed_gaussian` mode the
source rebinds `m`: the returned mask has one entry per point that passed
the in-range mask (not per original input point), and it is true precisely
when `L+1 ≤ ix ≤ Nx-L-2` and `L+2 ≤ iy ≤ Ny-L-2` (the lower `iy` bound is
strict, `iy > L+1`, one pixel narrower than the claim's
`at least L+1 pixels from every border`). -/
theorem render_xy_mask_spec (expK sqrtO : ℚ → ℚ) (x y : List ℚ)
    (sx sy a b c d fw : ℚ) (fwhm : Option ℚ)
    (hlen : x.length = y.length) (hsx : 0 < sx) (hsy : 0 < sy)
    (hab : a ≤ b) (hcd : c ≤ d) :
    (∃ h xi yi m, render_xy expK sqrtO x y sx sy (some (a, b)) (some (c, d))
        RenderType.histogram fwhm = .ok (h, xi, yi, m) ∧
      m.length = x.length ∧
      (∀ i < x.length, (m.getD i false = true ↔
        (0 ≤ roundHalfEven ((x.getD i 0 - a) / sx) ∧
         roundHalfEven ((x.getD i 0 - a) / sx) < ⌈(b - a) / sx⌉ ∧
         0 ≤ roundHalfEven ((y.getD i 0 - c) / sy) ∧
         roundHalfEven ((y.getD i 0 - c) / sy) < ⌈(d - c) / sy⌉)))) ∧
    (∃ h xi yi m, render_xy expK sqrtO x y sx sy (some (a, b)) (some (c, d))
        RenderType.fixed_gaussian (some fw) = .ok (h, xi, yi, m) ∧
      m.length = (List.zipWith
        (fun u v => decide (0 ≤ u) && decide (u < ⌈(b - a) / sx⌉) &&
          decide (0 ≤ v) && decide (v < ⌈(d - c) / sy⌉))
        (List.map roundHalfEven (List.map (fun v => (v - a) / sx) x))
        (List.map roundHalfEven
          (List.map (fun v => (v - c) / sy) y))).countP id ∧
      (∀ j < m.length, (m.getD j false = true ↔
        (⌈2 * max (fw / sx) (fw / sy)⌉ + 1 ≤
          (maskFilter (List.map roundHalfEven
              (List.map (fun v => (v - a) / sx) x))
            (List.zipWith
              (fun u v => decide (0 ≤ u) && decide (u < ⌈(b - a) / sx⌉) &&
                decide (0 ≤ v) && decide (v < ⌈(d - c) / sy⌉))
              (List.map roundHalfEven (List.map (fun v => (v - a) / sx) x))
              (List.map roundHalfEven
                (List.map (fun v => (v - c) / sy) y)))).getD j 0 ∧
         (maskFilter (List.map roundHalfEven
              (List.map (fun v => (v - a) / sx) x))
            (List.zipWith
              (fun u v => decide (0 ≤ u) && decide (u < ⌈(b - a) / sx⌉) &&
                decide (0 ≤ v) && decide (v < ⌈(d - c) / sy⌉))
              (List.map roundHalfEven (List.map (fun v => (v - a) / sx) x))
              (List.map roundHalfEven
                (List.map (fun v => (v - c) / sy) y)))).getD j 0 <
           ⌈(b - a) / sx⌉ - ⌈2 * max (fw / sx) (fw / sy)⌉ - 1 ∧
         ⌈2 * max (fw / sx) (fw / sy)⌉ + 1 <
          (maskFilter (List.map roundHalfEven
              (List.map (fun v => (v - c) / sy) y))
            (List.zipWith
              (fun u v => decide (0 ≤ u) && decide (u < ⌈(b - a) / sx⌉) &&
                decide (0 ≤ v) && decide (v < ⌈(d - c) / sy⌉))
              (List.map roundHalfEven (List.map (fun v => (v - a) / sx) x))
              (List.map roundHalfEven
                (List.map (fun v => (v - c) / sy) y)))).getD j 0 ∧
         (maskFilter (List.map roundHalfEven
              (List.map (fun v => (v - c) / sy) y))
            (List.zipWith
              (fun u v => decide (0 ≤ u) && decide (u < ⌈(b - a) / sx⌉) &&
                decide (0 ≤ v) && decide (v < ⌈(d - c) / sy⌉))
              (List.map roundHalfEven (List.map (fun v => (v - a) / sx) x))
              (List.map roundHalfEven
                (List.map (fun v => (v - c) / sy) y)))).getD j 0 <
           ⌈(d - c) / sy⌉ - ⌈2 * max (fw / sx) (fw / sy)⌉ - 1)))) := by
  have hNneg : ¬ ((⌈(b - a) / sx⌉ : ℤ) < 0 ∨ (⌈(d - c) / sy⌉ : ℤ) < 0) := by
    push_neg
    exact ⟨Int.ceil_nonneg (div_nonneg (by linarith) hsx.le),
      Int.ceil_nonneg (div_nonneg (by linarith) hsy.le)⟩
  constructor
  · simp only [render_xy, Option.getD_some]
    rw [if_neg (show ¬ x.length ≠ y.length by simp [hlen])]
    rw [if_neg (show ¬ ((some (a, b) = none ∧ x = []) ∨
      (some (c, d) = none ∧ y = [])) by simp)]
    rw [if_neg (show ¬ (sx = 0 ∨ sy = 0) by simp [hsx.ne', hsy.ne'])]
    rw [if_neg hNneg]
    refine ⟨_, _, _, _, rfl, ?_, ?_⟩
    · rw [List.length_zipWith]
      simp [hlen]
    · intro i hi
      have hiy0 : i < y.length := by omega
      rw [zipWith_getD_pred _ _ _ i (by simpa using hi)
        (by simp only [List.length_map]; omega)]
      rw [getD_map_of_lt roundHalfEven _ i (by simpa using hi) 0 0,
        getD_map_of_lt (fun v => (v - a) / sx) x i hi 0 0,
        getD_map_of_lt roundHalfEven _ i (by simpa using hiy0) 0 0,
        getD_map_of_lt (fun v => (v - c) / sy) y i hiy0 0 0]
      simp only [Bool.and_eq_true, decide_eq_true_eq, and_assoc]
  · simp only [render_xy, Option.getD_some]
    rw [if_neg (show ¬ x.length ≠ y.length by simp [hlen])]
    rw [if_neg (show ¬ ((some (a, b) = none ∧ x = []) ∨
      (some (c, d) = none ∧ y = [])) by simp)]
    rw [if_neg (show ¬ (sx = 0 ∨ sy = 0) by simp [hsx.ne', hsy.ne'])]
    rw [if_neg hNneg]
    set ix : List ℤ := List.map roundHalfEven
      (List.map (fun v => (v - a) / sx) x) with hix
    set iy : List ℤ := List.map roundHalfEven
      (List.map (fun v => (v - c) / sy) y) with hiy
    set m1 : List Bool := List.zipWith
      (fun u v => decide (0 ≤ u) && decide (u < ⌈(b - a) / sx⌉) &&
        decide (0 ≤ v) && decide (v < ⌈(d - c) / sy⌉)) ix iy with hm1
    have hlix : ix.length = m1.length := by
      rw [hm1, List.length_zipWith, hix, hiy]
      simp [hlen]
    have hliy : iy.length = m1.length := by
      rw [hm1, List.length_zipWith, hix, hiy]
      simp [hlen]
    have hlixf : (maskFilter ix m1).length = m1.countP id :=
      maskFilter_length ix m1 hlix
    have hliyf : (maskFilter iy m1).length = m1.countP id :=
      maskFilter_length iy m1 hliy
    refine ⟨_, _, _, _, rfl, ?_, ?_⟩
    · rw [List.length_zipWith, hlixf, hliyf, min_self]
    · intro j hj
      rw [List.length_zipWith, hlixf, hliyf, min_self] at hj
      rw [zipWith_getD_pred _ _ _ j (by rw [hlixf]; exact hj)
        (by rw [hliyf]; exact hj)]
      simp only [Bool.and_eq_true, decide_eq_true_eq, and_assoc]

/-- Counterexample for claim C4: rendering the points
`(20,5), (5,2), (5,5)` on the `10×10` unit grid in `fixed_gaussian` mode
with `fwhm = 0.5` (so `L = 1`): the returned mask is `[false, true]` — two
entries for three input points (the out-of-range point `(20,5)` has no
entry at all), and the entry for the point with pixel indices `(5,2)`,
which is `L+1 = 2` pixels away from every border and hence predicted `true`
by the claim, is `false` because of the strict `iy > L+1` bound. -/
theorem render_xy_gaussian_mask_counterexample :
    (render_xy (fun q => q) (fun q => q) [20, 5, 5] [5, 2, 5] 1 1
        (some (0, 10)) (some (0, 10)) RenderType.fixed_gaussian
        (some (1/2))).map (fun t => t.2.2.2) = .ok [false, true] ∧
    ([false, true] : List Bool).length ≠ ([(20 : ℚ), 5, 5] : List ℚ).length ∧
    ((1 : ℤ) + 1 ≤ 5 ∧ (5 : ℤ) ≤ 10 - 1 - (1 + 1) ∧
      (1 : ℤ) + 1 ≤ 2 ∧ (2 : ℤ) ≤ 10 - 1 - (1 + 1)) ∧
    ([false, true] : List Bool).getD 0 false = false := by
  refine ⟨?_, by decide, by decide, by decide⟩
  simp only [render_xy, Option.getD_some]
  rw [if_neg (by simp)]
  rw [if_neg (by simp)]
  rw [if_neg (by norm_num)]
  rw [if_neg (show ¬ ((⌈((10 : ℚ) - 0) / 1⌉ : ℤ) < 0 ∨
    (⌈((10 : ℚ) - 0) / 1⌉ : ℤ) < 0) by
    push_neg
    constructor
    · exact Int.ceil_nonneg (by norm_num)
    · exact Int.ceil_nonneg (by norm_num))]
  have hN : (⌈((10 : ℚ) - 0) / 1⌉ : ℤ) = 10 := by
    rw [Int.ceil_eq_iff]
    norm_num
  have hr20 : roundHalfEven (((20 : ℚ) - 0) / 1) = 20 :=
    roundHalfEven_eq_self _ 20 (by norm_num)
  have hr5 : roundHalfEven (((5 : ℚ) - 0) / 1) = 5 :=
    roundHalfEven_eq_self _ 5 (by norm_num)
  have hr2 : roundHalfEven (((2 : ℚ) - 0) / 1) = 2 :=
    roundHalfEven_eq_self _ 2 (by norm_num)
  have hL : (⌈2 * max ((1 : ℚ)/2 / 1) ((1 : ℚ)/2 / 1)⌉ : ℤ) = 1 := by
    rw [max_self]
    rw [Int.ceil_eq_iff]
    norm_num
  simp only [List.map_cons, List.map_nil, hN, hr20, hr5, hr2, hL,
    List.zipWith_cons_cons, List.zipWith_nil_right, Except.map]
  norm_num [maskFilter_cons_true, maskFilter_cons_false, maskFilter]
  decide

/-- Witness for the amended C4: one point at the centre of the unit grid,
rendered in both modes. -/
theorem render_xy_mask_spec_witness :
    (([(1/2 : ℚ)] : List ℚ).length = ([(1/2 : ℚ)] : List ℚ).length) ∧
    ((0 : ℚ) < 1) ∧ ((0 : ℚ) ≤ 1) ∧
    (    (∃ h xi yi m, render_xy (fun q => q) (fun q => q) [(1/2 : ℚ)] [(1/2 : ℚ)] (1 : ℚ) (1 : ℚ) (some ((0 : ℚ), (1 : ℚ))) (some ((0 : ℚ), (1 : ℚ)))
        RenderType.histogram none = .ok (h, xi, yi, m) ∧
      m.length = [(1/2 : ℚ)].length ∧
      (∀ i < [(1/2 : ℚ)].length, (m.getD i false = true ↔
        (0 ≤ roundHalfEven (([(1/2 : ℚ)].getD i 0 - (0 : ℚ)) / (1 : ℚ)) ∧
         roundHalfEven (([(1/2 : ℚ)].getD i 0 - (0 : ℚ)) / (1 : ℚ)) < ⌈((1 : ℚ) - (0 : ℚ)) / (1 : ℚ)⌉ ∧
         0 ≤ roundHalfEven (([(1/2 : ℚ)].getD i 0 - (0 : ℚ)) / (1 : ℚ)) ∧
         roundHalfEven (([(1/2 : ℚ)].getD i 0 - (0 : ℚ)) / (1 : ℚ)) < ⌈((1 : ℚ) - (0 : ℚ)) / (1 : ℚ)⌉)))) ∧
    (∃ h xi yi m, render_xy (fun q => q) (fun q => q) [(1/2 : ℚ)] [(1/2 : ℚ)] (1 : ℚ) (1 : ℚ) (some ((0 : ℚ), (1 : ℚ))) (some ((0 : ℚ), (1 : ℚ)))
        RenderType.fixed_gaussian (some (1/2 : ℚ)) = .ok (h, xi, yi, m) ∧
      m.length = (List.zipWith
        (fun u v => decide (0 ≤ u) && decide (u < ⌈((1 : ℚ) - (0 : ℚ)) / (1 : ℚ)⌉) &&
          decide (0 ≤ v) && decide (v < ⌈((1 : ℚ) - (0 : ℚ)) / (1 : ℚ)⌉))
        (List.map roundHalfEven (List.map (fun v => (v - (0 : ℚ)) / (1 : ℚ)) [(1/2 : ℚ)]))
        (List.map roundHalfEven
          (List.map (fun v => (v - (0 : ℚ)) / (1 : ℚ)) [(1/2 : ℚ)]))).countP id ∧
      (∀ j < m.length, (m.getD j false = true ↔
        (⌈2 * max ((1/2 : ℚ) / (1 : ℚ)) ((1/2 : ℚ) / (1 : ℚ))⌉ + 1 ≤
          (maskFilter (List.map roundHalfEven
              (List.map (fun v => (v - (0 : ℚ)) / (1 : ℚ)) [(1/2 : ℚ)]))
            (List.zipWith
              (fun u v => decide (0 ≤ u) && decide (u < ⌈((1 : ℚ) - (0 : ℚ)) / (1 : ℚ)⌉) &&
                decide (0 ≤ v) && decide (v < ⌈((1 : ℚ) - (0 : ℚ)) / (1 : ℚ)⌉))
              (List.map roundHalfEven (List.map (fun v => (v - (0 : ℚ)) / (1 : ℚ)) [(1/2 : ℚ)]))
              (List.map roundHalfEven
                (List.map (fun v => (v - (0 : ℚ)) / (1 : ℚ)) [(1/2 : ℚ)])))).getD j 0 ∧
         (maskFilter (List.map roundHalfEven
              (List.map (fun v => (v - (0 : ℚ)) / (1 : ℚ)) [(1/2 : ℚ)]))
            (List.zipWith
              (fun u v => decide (0 ≤ u) && decide (u < ⌈((1 : ℚ) - (0 : ℚ)) / (1 : ℚ)⌉) &&
                decide (0 ≤ v) && decide (v < ⌈((1 : ℚ) - (0 : ℚ)) / (1 : ℚ)⌉))
              (List.map roundHalfEven (List.map (fun v => (v - (0 : ℚ)) / (1 : ℚ)) [(1/2 : ℚ)]))
              (List.map roundHalfEven
                (List.map (fun v => (v - (0 : ℚ)) / (1 : ℚ)) [(1/2 : ℚ)])))).getD j 0 <
           ⌈((1 : ℚ) - (0 : ℚ)) / (1 : ℚ)⌉ - ⌈2 * max ((1/2 : ℚ) / (1 : ℚ)) ((1/2 : ℚ) / (1 : ℚ))⌉ - 1 ∧
         ⌈2 * max ((1/2 : ℚ) / (1 : ℚ)) ((1/2 : ℚ) / (1 : ℚ))⌉ + 1 <
          (maskFilter (List.map roundHalfEven
              (List.map (fun v => (v - (0 : ℚ)) / (1 : ℚ)) [(1/2 : ℚ)]))
            (List.zipWith
              (fun u v => decide (0 ≤ u) && decide (u < ⌈((1 : ℚ) - (0 : ℚ)) / (1 : ℚ)⌉) &&
                decide (0 ≤ v) && decide (v < ⌈((1 : ℚ) - (0 : ℚ)) / (1 : ℚ)⌉))
              (List.map roundHalfEven (List.map (fun v => (v - (0 : ℚ)) / (1 : ℚ)) [(1/2 : ℚ)]))
              (List.map roundHalfEven
                (List.map (fun v => (v - (0 : ℚ)) / (1 : ℚ)) [(1/2 : ℚ)])))).getD j 0 ∧
         (maskFilter (List.map roundHalfEven
              (List.map (fun v => (v - (0 : ℚ)) / (1 : ℚ)) [(1/2 : ℚ)]))
            (List.zipWith
              (fun u v => decide (0 ≤ u) && decide (u < ⌈((1 : ℚ) - (0 : ℚ)) / (1 : ℚ)⌉) &&
                decide (0 ≤ v) && decide (v < ⌈((1 : ℚ) - (0 : ℚ)) / (1 : ℚ)⌉))
              (List.map roundHalfEven (List.map (fun v => (v - (0 : ℚ)) / (1 : ℚ)) [(1/2 : ℚ)]))
              (List.map roundHalfEven
                (List.map (fun v => (v - (0 : ℚ)) / (1 : ℚ)) [(1/2 : ℚ)])))).getD j 0 <
           ⌈((1 : ℚ) - (0 : ℚ)) / (1 : ℚ)⌉ - ⌈2 * max ((1/2 : ℚ) / (1 : ℚ)) ((1/2 : ℚ) / (1 : ℚ))⌉ - 1))))) :=
  ⟨rfl, by norm_num, by norm_num,
    render_xy_mask_spec (fun q => q) (fun q => q) [(1/2 : ℚ)] [(1/2 : ℚ)]
      1 1 0 1 0 1 (1/2 : ℚ) none rfl (by norm_num) (by norm_num)
      (by norm_num) (by norm_num)⟩

theorem findIdx?_some_spec {α : Type} (p : α → Bool) (d : α) (l : List α) :
    ∀ j : ℕ, l.findIdx? p = some j →
      j < l.length ∧ p (l.getD j d) = true ∧ ∀ k < j, p (l.getD k d) = false := by
  induction l with
  | nil =>
    intro j h
    simp [List.findIdx?_nil] at h
  | cons a t ih =>
    intro j h
    rw [List.findIdx?_cons] at h
    by_cases hpa : p a
    · rw [if_pos hpa] at h
      cases h
      exact ⟨by simp, by simpa using hpa, fun k hk => absurd hk (by omega)⟩
    · rw [if_neg hpa, List.findIdx?_succ] at h
      obtain ⟨i, hi, rfl⟩ := Option.map_eq_some'.mp h
      obtain ⟨hlt, hp, hall⟩ := ih i hi
      refine ⟨by simp only [List.length_cons]; omega, by simpa using hp, ?_⟩
      intro k hk
      cases k with
      | zero =>
        simpa using Bool.eq_false_iff.mpr hpa
      | succ k2 =>
        rw [List.getD_cons_succ]
        exact hall k2 (by omega)

theorem findIdx?_none_spec {α : Type} (p : α → Bool) (d : α) (l : List α) :
    l.findIdx? p = none → ∀ j < l.length, p (l.getD j d) = false := by
  induction l with
  | nil =>
    intro _ j hj
    simp at hj
  | cons a t ih =>
    intro h j hj
    rw [List.findIdx?_cons] at h
    by_cases hpa : p a
    · rw [if_pos hpa] at h
      simp at h
    · rw [if_neg hpa, List.findIdx?_succ] at h
      have ht : t.findIdx? p = none := by
        cases hx : t.findIdx? p
        · rfl
        · rw [hx] at h
          simp at h
      cases j with
      | zero => simpa using Bool.eq_false_iff.mpr hpa
      | succ j2 =>
        rw [List.getD_cons_succ]
        exact ih ht j2 (by simpa using hj)

theorem mapExcept_cons_ok {α β ε : Type} (f : α → Except ε β) (a : α)
    (l : List α) (outs : List β)
    (h : mapExcept f (a :: l) = .ok outs) :
    ∃ b bs, f a = .ok b ∧ mapExcept f l = .ok bs ∧ outs = b :: bs := by
  cases hfa : f a with
  | error e =>
    simp [mapExcept, hfa, Bind.bind, Except.bind] at h
  | ok b =>
    cases hml : mapExcept f l with
    | error e =>
      simp [mapExcept, hfa, hml, Bind.bind, Except.bind] at h
    | ok bs =>
      simp only [mapExcept, hfa, hml, Bind.bind, Except.bind] at h
      cases h
      exact ⟨b, bs, rfl, rfl, rfl⟩

theorem frc_tail_spec (sg : List ℚ → List ℚ)
    (hsg : ∀ l : List ℚ, (sg l).length = l.length)
    (qi ci : List ℚ) (hne : qi ≠ []) (hclen : ci.length = qi.length)
    (hcut : maskFilter qi (frcCutMask qi) ≠ []) :
    ∃ res : ℚ,
      frc_tail sg qi ci = .ok (res, maskFilter qi (frcCutMask qi),
        sg (maskFilter ci (frcCutMask qi))) ∧
      ((∃ j, j < (sg (maskFilter ci (frcCutMask qi))).length ∧
          (sg (maskFilter ci (frcCutMask qi))).getD j 0 < 1/7) →
        ∃ j, j < (sg (maskFilter ci (frcCutMask qi))).length ∧
          (sg (maskFilter ci (frcCutMask qi))).getD j 0 < 1/7 ∧
          (∀ k < j, ¬ ((sg (maskFilter ci (frcCutMask qi))).getD k 0 < 1/7)) ∧
          res = 1 / (maskFilter qi (frcCutMask qi)).getD j 0) ∧
      ((∀ j < (sg (maskFilter ci (frcCutMask qi))).length,
          ¬ ((sg (maskFilter ci (frcCutMask qi))).getD j 0 < 1/7)) →
        res = 1 / (maskFilter qi (frcCutMask qi)).getLastD 0) := by
  have hmq : (frcCutMask qi).length = qi.length := by simp [frcCutMask]
  have hq' : (maskFilter qi (frcCutMask qi)).length =
      (frcCutMask qi).countP id :=
    maskFilter_length _ _ (by omega)
  have hc' : (maskFilter ci (frcCutMask qi)).length =
      (frcCutMask qi).countP id :=
    maskFilter_length _ _ (by omega)
  have hlen2 : (sg (maskFilter ci (frcCutMask qi))).length =
      (maskFilter qi (frcCutMask qi)).length := by
    rw [hsg, hc', hq']
  simp only [frc_tail]
  rw [if_neg hne, if_neg (by simp [hclen])]
  cases hfi : (sg (maskFilter ci (frcCutMask qi))).findIdx?
      (fun v => decide (v < 1/7)) with
  | some i =>
    obtain ⟨hilt, hpi, hall⟩ := findIdx?_some_spec _ 0 _ i hfi
    have hiq : i < (maskFilter qi (frcCutMask qi)).length := by omega
    simp only [hfi, List.getElem?_eq_getElem hiq]
    refine ⟨_, rfl, ?_, ?_⟩
    · intro _
      refine ⟨i, hilt, by simpa using hpi, ?_, ?_⟩
      · intro k hk
        have := hall k hk
        simp only [decide_eq_false_iff_not] at this
        exact this
      · rw [List.getD_eq_getElem _ _ hiq]
    · intro hnone
      have := hnone i hilt
      simp only [decide_eq_true_eq] at hpi
      exact absurd hpi this
  | none =>
    have hnone := findIdx?_none_spec (fun v => decide (v < 1/7)) 0 _ hfi
    obtain ⟨q, hq⟩ := Option.isSome_iff_exists.mp
      (List.getLast?_isSome.mpr hcut)
    simp only [hfi, hq]
    refine ⟨1 / q, rfl, ?_, fun _ => ?_⟩
    · intro hex
      obtain ⟨j, hj, hPj⟩ := hex
      have := hnone j hj
      simp only [decide_eq_false_iff_not] at this
      exact absurd hPj this
    · rw [List.getLastD_eq_getLast?, hq]
      rfl

theorem estimate_fold_some (sg : List ℚ → List ℚ)
    (rest : List (List ℚ × List ℚ)) :
    ∀ (outs2 : List (ℚ × List ℚ × List ℚ)) (n : ℕ) (ress : List ℚ)
      (cs : List (List ℚ)) (qlast : List ℚ),
      mapExcept (fun rep => frc_tail sg rep.1 rep.2) rest = .ok outs2 →
      (∀ o ∈ outs2, o.2.2.length = n) →
      rest.foldlM
        (fun (acc : List ℚ × Option (ℕ × List (List ℚ)) × List ℚ) rep => do
          let (res, qi, ci) ← frc_tail sg rep.1 rep.2
          match acc.2.1 with
          | none => pure (acc.1 ++ [res], some (ci.length, [ci]), qi)
          | some (n, cs) =>
            if ci.length = n then
              pure (acc.1 ++ [res], some (n, cs ++ [ci]), qi)
            else .error .indexError)
        (ress, some (n, cs), qlast) =
      .ok (ress ++ outs2.map (fun o => o.1),
        some (n, cs ++ outs2.map (fun o => o.2.2)),
        (outs2.map (fun o => o.2.1)).getLastD qlast) := by
  induction rest with
  | nil =>
    intro outs2 n ress cs qlast hmap hlens
    simp only [mapExcept] at hmap
    cases hmap
    simp only [List.foldlM_nil, List.map_nil, List.append_nil]
    rfl
  | cons r rs ih =>
    intro outs2 n ress cs qlast hmap hlens
    obtain ⟨o, os, hfo, hrs, rfl⟩ := mapExcept_cons_ok _ _ _ _ hmap
    obtain ⟨o1, o2, o3⟩ := o
    have hn : o3.length = n := by simpa using hlens (o1, o2, o3) (by simp)
    rw [List.foldlM_cons]
    have hstep : (fun (acc : List ℚ × Option (ℕ × List (List ℚ)) × List ℚ)
        rep => do
          let (res, qi, ci) ← frc_tail sg rep.1 rep.2
          match acc.2.1 with
          | none => pure (acc.1 ++ [res], some (ci.length, [ci]), qi)
          | some (n, cs) =>
            if ci.length = n then
              pure (acc.1 ++ [res], some (n, cs ++ [ci]), qi)
            else .error .indexError)
        (ress, some (n, cs), qlast) r =
        (pure (ress ++ [o1], some (n, cs ++ [o3]), o2) :
          Except PyErr (List ℚ × Option (ℕ × List (List ℚ)) × List ℚ)) := by
      simp only [hfo, Bind.bind, Except.bind]
      rw [if_pos hn]
    simp only [hstep, pure_bind]
    rw [ih os n (ress ++ [o1]) (cs ++ [o3]) o2 hrs
      (fun o' ho' => hlens o' (by simp [ho']))]
    simp only [List.append_assoc, List.singleton_append, List.map_cons]
    cases os with
    | nil => simp
    | cons a t =>
      simp [List.getLast?_cons_cons, List.getLast?_map, List.getLastD]

theorem estimate_loop_spec (sg : List ℚ → List ℚ)
    (reps : List (List ℚ × List ℚ)) (outs : List (ℚ × List ℚ × List ℚ))
    (n : ℕ)
    (hmap : mapExcept (fun rep => frc_tail sg rep.1 rep.2) reps = .ok outs)
    (hne : outs ≠ []) (hlens : ∀ o ∈ outs, o.2.2.length = n) :
    estimate_resolution_loop sg reps = .ok
      ((outs.map (fun o => o.1)).sum / (outs.length : ℚ),
       (outs.map (fun o => o.2.1)).getLastD [],
       (List.range n).map (fun j =>
         (outs.map (fun o => o.2.2.getD j 0)).sum / (outs.length : ℚ))) := by
  cases reps with
  | nil =>
    simp only [mapExcept] at hmap
    cases hmap
    exact absurd rfl hne
  | cons r rs =>
    obtain ⟨o, os, hfo, hrs, rfl⟩ := mapExcept_cons_ok _ _ _ _ hmap
    obtain ⟨o1, o2, o3⟩ := o
    have hn : o3.length = n := by simpa using hlens (o1, o2, o3) (by simp)
    simp only [estimate_resolution_loop]
    rw [List.foldlM_cons]
    have hstep : (fun (acc : List ℚ × Option (ℕ × List (List ℚ)) × List ℚ)
        rep => do
          let (res, qi, ci) ← frc_tail sg rep.1 rep.2
          match acc.2.1 with
          | none => pure (acc.1 ++ [res], some (ci.length, [ci]), qi)
          | some (n, cs) =>
            if ci.length = n then
              pure (acc.1 ++ [res], some (n, cs ++ [ci]), qi)
            else .error .indexError)
        (([] : List ℚ), (none : Option (ℕ × List (List ℚ))),
          ([] : List ℚ)) r =
        (pure ([o1], some (o3.length, [o3]), o2) :
          Except PyErr (List ℚ × Option (ℕ × List (List ℚ)) × List ℚ)) := by
      simp only [hfo, Bind.bind, Except.bind]
      rfl
    simp only [hstep, hn, pure_bind]
    rw [estimate_fold_some sg rs os n [o1] [o3] o2 hrs
      (fun o' ho' => hlens o' (by simp [ho']))]
    simp only [Bind.bind, Except.bind]
    simp only [List.map_map, List.getLastD_cons, List.singleton_append,
      List.map_cons, List.length_cons, List.sum_cons]
    simp [List.length_map, Function.comp_def]

/-- Claim C6: in `img_fourier_ring_correlation` the estimated resolution is
`1/q_critical`, where `q_critical` is the first binned frequency at which
the smoothed correlation curve drops below `1/7` (the least index of the
returned curve below the threshold), or the last available frequency when
the curve never drops below `1/7`; and across the repetitions of
`estimate_resolution_by_frc` the returned resolution is the arithmetic mean
of the per-repetition estimates, while the returned correlation curve is
the per-frequency-bin mean of the per-repetition curves (whose bins align
because grid, resolution and range are fixed; the returned frequency axis
is the last repetition's).  The spectral pipeline (FFTs, smoothing, radial
binning) is irrational/floating-point and enters as the per-repetition
binned inputs; `sg` abstracts the Savitzky-Golay filter. -/
theorem frc_resolution_and_averaging (sg : List ℚ → List ℚ)
    (hsg : ∀ l : List ℚ, (sg l).length = l.length) :
    (∀ qi ci : List ℚ, qi ≠ [] → ci.length = qi.length →
      maskFilter qi (frcCutMask qi) ≠ [] →
      ∃ res : ℚ,
        frc_tail sg qi ci = .ok (res, maskFilter qi (frcCutMask qi),
          sg (maskFilter ci (frcCutMask qi))) ∧
        ((∃ j, j < (sg (maskFilter ci (frcCutMask qi))).length ∧
            (sg (maskFilter ci (frcCutMask qi))).getD j 0 < 1/7) →
          ∃ j, j < (sg (maskFilter ci (frcCutMask qi))).length ∧
            (sg (maskFilter ci (frcCutMask qi))).getD j 0 < 1/7 ∧
            (∀ k < j, ¬ ((sg (maskFilter ci (frcCutMask qi))).getD k 0 < 1/7)) ∧
            res = 1 / (maskFilter qi (frcCutMask qi)).getD j 0) ∧
        ((∀ j < (sg (maskFilter ci (frcCutMask qi))).length,
            ¬ ((sg (maskFilter ci (frcCutMask qi))).getD j 0 < 1/7)) →
          res = 1 / (maskFilter qi (frcCutMask qi)).getLastD 0)) ∧
    (∀ (reps : List (List ℚ × List ℚ)) (outs : List (ℚ × List ℚ × List ℚ))
        (n : ℕ),
      mapExcept (fun rep => frc_tail sg rep.1 rep.2) reps = .ok outs →
      outs ≠ [] → (∀ o ∈ outs, o.2.2.length = n) →
      estimate_resolution_loop sg reps = .ok
        ((outs.map (fun o => o.1)).sum / (outs.length : ℚ),
         (outs.map (fun o => o.2.1)).getLastD [],
         (List.range n).map (fun j =>
           (outs.map (fun o => o.2.2.getD j 0)).sum / (outs.length : ℚ)))) :=
  ⟨fun qi ci h1 h2 h3 => frc_tail_spec sg hsg qi ci h1 h2 h3,
   fun reps outs n h1 h2 h3 => estimate_loop_spec sg reps outs n h1 h2 h3⟩

theorem frcCutMask_example :
    frcCutMask [(0 : ℚ), 1, 2, 3, 4] = [true, true, true, true, false] := by
  have hmax : npMax [(0 : ℚ), 1, 2, 3, 4] = 4 := by
    simp only [npMax, List.headD_cons, List.foldl_cons, List.foldl_nil]
    norm_num [max_def]
  simp only [frcCutMask, hmax, List.map_cons, List.map_nil]
  norm_num

theorem frc_tail_example :
    frc_tail id [(0 : ℚ), 1, 2, 3, 4] [(1 : ℚ), 1, 0, 1, 1] =
      .ok (1/2, [0, 1, 2, 3], [1, 1, 0, 1]) := by
  have hqcut : maskFilter [(0 : ℚ), 1, 2, 3, 4]
      (frcCutMask [(0 : ℚ), 1, 2, 3, 4]) = [0, 1, 2, 3] := by
    rw [frcCutMask_example]
    simp [maskFilter_cons_true, maskFilter_cons_false, maskFilter]
  have hccut : maskFilter [(1 : ℚ), 1, 0, 1, 1]
      (frcCutMask [(0 : ℚ), 1, 2, 3, 4]) = [1, 1, 0, 1] := by
    rw [frcCutMask_example]
    simp [maskFilter_cons_true, maskFilter_cons_false, maskFilter]
  have c1 : ¬ ((fun v : ℚ => decide (v < 1/7)) 1 = true) := by
    simp only [decide_eq_true_eq]
    norm_num
  have c2 : (fun v : ℚ => decide (v < 1/7)) 0 = true := by
    simp only [decide_eq_true_eq]
    norm_num
  have hfind : ([(1 : ℚ), 1, 0, 1] : List ℚ).findIdx?
      (fun v => decide (v < 1/7)) = some 2 := by
    rw [List.findIdx?_cons, if_neg c1, List.findIdx?_succ]
    rw [List.findIdx?_cons, if_neg c1, List.findIdx?_succ]
    rw [List.findIdx?_cons, if_pos c2]
    rfl
  simp only [frc_tail]
  rw [if_neg (by simp), if_neg (by simp)]
  rw [hqcut, hccut]
  simp only [id_eq, hfind]
  rfl


/-- Witness for C6: a single repetition with binned frequencies
`[0, 1, 2, 3, 4]` and raw curve `[1, 1, 0, 1, 1]`; the cut keeps
`[0, 1, 2, 3]`, the (identity-smoothed) curve first drops below `1/7` at
frequency `2`, so the resolution is `1/2`, and the loop returns the mean of
the one-repetition arrays. -/
theorem frc_resolution_and_averaging_witness :
    (([(0 : ℚ), 1, 2, 3, 4] : List ℚ) ≠ []) ∧
    (([(1 : ℚ), 1, 0, 1, 1] : List ℚ).length =
      ([(0 : ℚ), 1, 2, 3, 4] : List ℚ).length) ∧
    (maskFilter [(0 : ℚ), 1, 2, 3, 4]
      (frcCutMask [(0 : ℚ), 1, 2, 3, 4]) ≠ []) ∧
    (∃ res : ℚ,
        frc_tail id [(0 : ℚ), 1, 2, 3, 4] [(1 : ℚ), 1, 0, 1, 1] = .ok (res, maskFilter [(0 : ℚ), 1, 2, 3, 4] (frcCutMask [(0 : ℚ), 1, 2, 3, 4]),
          id (maskFilter [(1 : ℚ), 1, 0, 1, 1] (frcCutMask [(0 : ℚ), 1, 2, 3, 4]))) ∧
        ((∃ j, j < (id (maskFilter [(1 : ℚ), 1, 0, 1, 1] (frcCutMask [(0 : ℚ), 1, 2, 3, 4]))).length ∧
            (id (maskFilter [(1 : ℚ), 1, 0, 1, 1] (frcCutMask [(0 : ℚ), 1, 2, 3, 4]))).getD j 0 < 1/7) →
          ∃ j, j < (id (maskFilter [(1 : ℚ), 1, 0, 1, 1] (frcCutMask [(0 : ℚ), 1, 2, 3, 4]))).length ∧
            (id (maskFilter [(1 : ℚ), 1, 0, 1, 1] (frcCutMask [(0 : ℚ), 1, 2, 3, 4]))).getD j 0 < 1/7 ∧
            (∀ k < j, ¬ ((id (maskFilter [(1 : ℚ), 1, 0, 1, 1] (frcCutMask [(0 : ℚ), 1, 2, 3, 4]))).getD k 0 < 1/7)) ∧
            res = 1 / (maskFilter [(0 : ℚ), 1, 2, 3, 4] (frcCutMask [(0 : ℚ), 1, 2, 3, 4])).getD j 0) ∧
        ((∀ j < (id (maskFilter [(1 : ℚ), 1, 0, 1, 1] (frcCutMask [(0 : ℚ), 1, 2, 3, 4]))).length,
            ¬ ((id (maskFilter [(1 : ℚ), 1, 0, 1, 1] (frcCutMask [(0 : ℚ), 1, 2, 3, 4]))).getD j 0 < 1/7)) →
          res = 1 / (maskFilter [(0 : ℚ), 1, 2, 3, 4] (frcCutMask [(0 : ℚ), 1, 2, 3, 4])).getLastD 0)) ∧
    (estimate_resolution_loop id
        [([(0 : ℚ), 1, 2, 3, 4], [(1 : ℚ), 1, 0, 1, 1])] = .ok
      ((([((1 : ℚ)/2, ([(0 : ℚ), 1, 2, 3] : List ℚ), ([(1 : ℚ), 1, 0, 1] : List ℚ))] : List (ℚ × List ℚ × List ℚ)).map (fun o => o.1)).sum / (([((1 : ℚ)/2, ([(0 : ℚ), 1, 2, 3] : List ℚ), ([(1 : ℚ), 1, 0, 1] : List ℚ))] : List (ℚ × List ℚ × List ℚ)).length : ℚ),
       (([((1 : ℚ)/2, ([(0 : ℚ), 1, 2, 3] : List ℚ), ([(1 : ℚ), 1, 0, 1] : List ℚ))] : List (ℚ × List ℚ × List ℚ)).map (fun o => o.2.1)).getLastD [],
       (List.range 4).map (fun j =>
         (([((1 : ℚ)/2, ([(0 : ℚ), 1, 2, 3] : List ℚ), ([(1 : ℚ), 1, 0, 1] : List ℚ))] : List (ℚ × List ℚ × List ℚ)).map (fun o => o.2.2.getD j 0)).sum /
           (([((1 : ℚ)/2, ([(0 : ℚ), 1, 2, 3] : List ℚ), ([(1 : ℚ), 1, 0, 1] : List ℚ))] : List (ℚ × List ℚ × List ℚ)).length : ℚ)))) := by
  have h := frc_resolution_and_averaging id (fun l => rfl)
  have hcut : maskFilter [(0 : ℚ), 1, 2, 3, 4]
      (frcCutMask [(0 : ℚ), 1, 2, 3, 4]) ≠ [] := by
    rw [frcCutMask_example]
    simp [maskFilter_cons_true, maskFilter_cons_false]
  have hmapex : mapExcept (fun rep => frc_tail id rep.1 rep.2)
      [([(0 : ℚ), 1, 2, 3, 4], [(1 : ℚ), 1, 0, 1, 1])] = .ok
      [((1 : ℚ)/2, ([(0 : ℚ), 1, 2, 3] : List ℚ),
        ([(1 : ℚ), 1, 0, 1] : List ℚ))] := by
    simp [mapExcept, frc_tail_example, Bind.bind, Except.bind]
  refine ⟨by simp, by simp, hcut, ?_, ?_⟩
  · exact h.1 [(0 : ℚ), 1, 2, 3, 4] [(1 : ℚ), 1, 0, 1, 1]
      (by simp) (by simp) hcut
  · refine h.2 [([(0 : ℚ), 1, 2, 3, 4], [(1 : ℚ), 1, 0, 1, 1])]
      ([((1 : ℚ)/2, ([(0 : ℚ), 1, 2, 3] : List ℚ), ([(1 : ℚ), 1, 0, 1] : List ℚ))] : List (ℚ × List ℚ × List ℚ)) 4 hmapex (by simp) ?_
    intro o ho
    simp only [List.mem_singleton] at ho
    rw [ho]
    rfl

end PyMinflux
